import Mathlib

/-!
ABX exchange client: decoding, gap detection and the repair session.

A shallow embedding of `src/client.cpp`.

* A wire byte is a `Fin 256`; a receive buffer is a `List Byte`.
* The C++ `int` is an `Int` kept in the 32-bit range by `wrap32` wherever the
  source computes with it (two's complement wrap-around, the behaviour of the
  target compiler).
* The transport (Winsock) is not part of the program.  It is a parameter:
  a `World` gives, for the k-th `NetworkManager` that `main` creates, whether
  `connect()` succeeds, what `send()` returns and what the successive `recv()`
  calls return.
* `std::sort` is a library routine.  It is a parameter too, with the contract
  the C++ standard gives it (`StdSort`).
* Everything observable that the program does is appended to a log of `Event`s.
-/

namespace ABX

/-- One byte of a buffer (a C++ `char` seen as its raw 8 bits). -/
abbrev Byte := Fin 256

/-- Two's complement reduction of an integer to the range of a 32-bit `int`. -/
def wrap32 (x : Int) : Int := (x + 2147483648) % 4294967296 - 2147483648

/-- Conversion `int -> char` (a signed 8-bit value), as in `char reqPacket = ...`. -/
def charOfInt (x : Int) : Int := (x + 128) % 256 - 128

/-- The raw byte that holds a `char` value. -/
def byteOfChar (c : Int) : Byte := ⟨(c % 256).toNat, by omega⟩

/-- The class `Packet` (lines 20-49). -/
structure Packet where
  symbol : List Byte
  indicatorBuySell : Byte
  quantity : Int
  price : Int
  packetSequence : Int
deriving DecidableEq

/-- `Packet::isValid` (lines 42-48); `'B'` is 66 and `'S'` is 83. -/
def Packet.isValid (p : Packet) : Bool :=
  !p.symbol.isEmpty &&
    (p.indicatorBuySell == 66 || p.indicatorBuySell == 83) &&
    decide (p.quantity > 0) &&
    decide (p.price ≥ 0) &&
    decide (p.packetSequence > 0)

/-- `ntohl(*(int*)(buffer.data() + off))` stored into an `int`: the four bytes
at `off`, most significant first, as an unsigned 32-bit value, reinterpreted as
a signed one. -/
def readInt32 (buf : List Byte) (off : Nat) : Int :=
  wrap32 (((buf.getD off 0).val * 16777216 + (buf.getD (off + 1) 0).val * 65536 +
    (buf.getD (off + 2) 0).val * 256 + (buf.getD (off + 3) 0).val : Nat) : Int)

/-- Lines 151-156: the packet read from the 17 bytes at offset `totalReceived`. -/
def decodeAt (buf : List Byte) (totalReceived : Nat) : Packet where
  symbol := (buf.drop totalReceived).take 4
  indicatorBuySell := buf.getD (totalReceived + 4) 0
  quantity := readInt32 buf (totalReceived + 5)
  price := readInt32 buf (totalReceived + 9)
  packetSequence := readInt32 buf (totalReceived + 13)

/-- What the program does that can be observed from outside. -/
inductive Event where
  | connect (ok : Bool)
  | send (request : List Byte) (ret : Int)
  | recv (ret : Int)
  | invalidPacket
  | message (text : String)
  | disconnect
  | sort
  | writeJson (data : List Packet)
  | totalPackets (count : Nat)
deriving DecidableEq

/-- The result of one `recv()` call: the bytes put in the buffer, or `SOCKET_ERROR`. -/
inductive RecvResult where
  | bytes (bs : List Byte)
  | error
deriving DecidableEq

/-- The variables that `receiveData` works on: the two containers passed by
reference, the local `sequence`, and the log. -/
structure RecvState where
  missingPackets : List Int
  data : List Packet
  sequence : Int
  log : List Event
deriving DecidableEq

/-- Lines 164-171: the gap arithmetic for one packet (only for request type 1). -/
def trackGaps (requestType : Int) (packet : Packet) (st : RecvState) : RecvState :=
  if requestType = 1 then
    let totalPacketsMissed := wrap32 (packet.packetSequence - st.sequence)
    { st with
      missingPackets := st.missingPackets ++
        (List.range totalPacketsMissed.toNat).map
          (fun (i : Nat) => wrap32 (st.sequence + (i : Int)))
      sequence := wrap32 (packet.packetSequence + 1) }
  else st

/-- Lines 160-171: what is done with one decoded packet. -/
def handlePacket (requestType : Int) (packet : Packet) (st : RecvState) : RecvState :=
  trackGaps requestType packet
    (if packet.isValid then { st with data := st.data ++ [packet] }
     else { st with log := st.log ++ [Event.invalidPacket] })

/-- Lines 147-172: the inner loop over one buffer of `buf.length` received
bytes.  `fuel` bounds the number of iterations. -/
def processLoop (requestType : Int) (buf : List Byte) :
    Nat → Nat → RecvState → RecvState
  | 0, _, st => st
  | fuel + 1, totalReceived, st =>
    if totalReceived < buf.length then
      if buf.length - totalReceived < 17 then st
      else
        processLoop requestType buf fuel (totalReceived + 17)
          (handlePacket requestType (decodeAt buf totalReceived) st)
    else st

/-- The inner loop started at offset 0; every iteration advances by 17 bytes,
so `buf.length` iterations are never exceeded. -/
def processBuffer (requestType : Int) (buf : List Byte) (st : RecvState) : RecvState :=
  processLoop requestType buf buf.length 0 st

/-- Lines 145-175: the outer loop over the successive `recv()` results.  The
first component is the value finally returned (`bytesReceived`).  A script that
has run out stands for a peer that closed the connection: `recv()` returns 0. -/
def receiveLoop (requestType : Int) : List RecvResult → RecvState → Int × RecvState
  | [], st => (0, { st with log := st.log ++ [Event.recv 0] })
  | RecvResult.error :: _, st => (-1, { st with log := st.log ++ [Event.recv (-1)] })
  | RecvResult.bytes bs :: rest, st =>
    let st1 := { st with log := st.log ++ [Event.recv (bs.length : Int)] }
    if bs.length = 0 then (0, st1)
    else
      let st2 := processBuffer requestType bs st1
      if requestType = 2 then ((bs.length : Int), st2)
      else receiveLoop requestType rest st2

/-- The outcome of `receiveData`: the returned value, the two containers, the log. -/
structure RecvOut where
  ret : Int
  missingPackets : List Int
  data : List Packet
  log : List Event
deriving DecidableEq

/-- `NetworkManager::receiveData` (lines 137-176). -/
def receiveData (socketValid : Bool) (script : List RecvResult)
    (missingPackets : List Int) (requestType : Int) (data : List Packet)
    (log : List Event) : RecvOut :=
  if !socketValid then ⟨-1, missingPackets, data, log⟩
  else
    let r := receiveLoop requestType script ⟨missingPackets, data, 1, log⟩
    ⟨r.1, r.2.missingPackets, r.2.data, r.2.log⟩

/-- `NetworkManager::sendData` with `handleSendError` (lines 61-64, 127-134);
`sendResult` is what `send()` returned, `SOCKET_ERROR` being -1. -/
def sendData (socketValid : Bool) (sendResult : Int) : Int :=
  if !socketValid then -1
  else if sendResult = -1 then 1
  else sendResult

/-- The transport as seen by one `NetworkManager`: whether `connect()`
succeeds, what `send()` returns for a request, and what the successive `recv()`
calls return after that request. -/
structure Conn where
  connectOk : Bool
  sendResult : List Byte → Int
  reads : List Byte → List RecvResult

/-- The environment of a session: the transport behaviour met by the k-th
`NetworkManager` that `main` creates (0 is the snapshot connection). -/
abbrev World := Nat → Conn

/-- The library routine `std::sort` called with the comparator
`a.packetSequence < b.packetSequence`, given by its contract: the result is a
rearrangement of the input in which no element is followed by one that the
comparator puts strictly before it. -/
structure StdSort where
  sort : List Packet → List Packet
  perm : ∀ l, (sort l).Perm l
  sorted : ∀ l, (sort l).Pairwise (fun a b => a.packetSequence ≤ b.packetSequence)

/-- The locals of `main` while it runs: the two containers, the number of
`NetworkManager`s created so far, and the log. -/
structure Session where
  dataPackets : List Packet
  missingPackets : List Int
  conns : Nat
  log : List Event
deriving DecidableEq

/-- Line 213: `char requestType1[2] = { ONE, 0 }`. -/
def requestType1 : List Byte := [1, 0]

/-- Lines 229-231: `char reqPacket = missingPackets.front();` and
`char requestType2[2] = { TWO, reqPacket }`. -/
def requestType2 (front : Int) : List Byte := [2, byteOfChar (charOfInt front)]

/-- Lines 222-239: one iteration of the loop that drains `missingPackets`. -/
def drainStep (w : World) (s : Session) : Session :=
  match s.missingPackets with
  | [] => s
  | front :: rest =>
    let c := w s.conns
    if !c.connectOk then
      { s with
        missingPackets := rest
        conns := s.conns + 1
        log := s.log ++ [Event.connect false,
          Event.message "Failed to connect for missing packet request."] }
    else
      let req := requestType2 front
      let sendResult := c.sendResult req
      let log1 := s.log ++ [Event.connect true, Event.send req sendResult]
      if sendData true sendResult = -1 then
        { s with
          missingPackets := rest
          conns := s.conns + 1
          log := log1 ++ [Event.message "Failed to send request for missing packet.",
            Event.disconnect] }
      else
        let r := receiveData true (c.reads req) rest 2 s.dataPackets log1
        { dataPackets := r.data
          missingPackets := r.missingPackets
          conns := s.conns + 1
          log :=
            if r.ret = -1 then
              r.log ++ [Event.message "Failed to receive data for missing packet.",
                Event.disconnect]
            else r.log ++ [Event.disconnect] }

/-- Lines 221-240: the loop `while (!missingPackets.empty())`, run for at most
`fuel` iterations; it returns the state reached. -/
def drainLoop (w : World) : Nat → Session → Session
  | 0, s => s
  | fuel + 1, s =>
    if s.missingPackets.isEmpty then s else drainLoop w fuel (drainStep w s)

/-- What a run of `main` leaves: the exit status, the two containers as they
are when `main` returns, and the log. -/
structure Outcome where
  status : Int
  dataPackets : List Packet
  missingPackets : List Int
  log : List Event
deriving DecidableEq

/-- The function `main` (lines 202-254).  The result is `none` when `fuel`
iterations did not empty the queue. -/
def main (srt : StdSort) (w : World) (fuel : Nat) : Option Outcome :=
  let c := w 0
  if !c.connectOk then some ⟨1, [], [], [Event.connect false]⟩
  else
    let sendResult := c.sendResult requestType1
    let log1 := [Event.connect true, Event.send requestType1 sendResult]
    if sendData true sendResult = -1 then some ⟨1, [], [], log1⟩
    else
      let r := receiveData true (c.reads requestType1) [] 1 []
        (log1 ++ [Event.message "Request sent to server."])
      if r.ret = -1 then some ⟨1, r.data, r.missingPackets, r.log⟩
      else
        let s := drainLoop w fuel ⟨r.data, r.missingPackets, 1, r.log⟩
        if s.missingPackets.isEmpty then
          let sorted := srt.sort s.dataPackets
          some ⟨0, sorted, s.missingPackets,
            s.log ++ [Event.sort, Event.writeJson sorted,
              Event.totalPackets sorted.length,
              Event.message "Server Disconnected."]⟩
        else none

/-- Insertion of a packet into a sorted list, before the first packet whose
sequence number is not smaller. -/
def insertBySeq (p : Packet) : List Packet → List Packet
  | [] => [p]
  | q :: l => if q.packetSequence < p.packetSequence then q :: insertBySeq p l else p :: q :: l

/-- Insertion sort on `packetSequence`. -/
def sortBySeq : List Packet → List Packet
  | [] => []
  | p :: l => insertBySeq p (sortBySeq l)

/-- Insertion sort meets the contract of `std::sort`. -/
def insertionSort : StdSort where
  sort := sortBySeq
  perm := by
    have hins : ∀ (p : Packet) (l : List Packet), (insertBySeq p l).Perm (p :: l) := by
      intro p l
      induction l with
      | nil => exact List.Perm.refl _
      | cons q l ih =>
        unfold insertBySeq
        split
        · exact ((List.Perm.cons q ih).trans (List.Perm.swap p q l))
        · exact List.Perm.refl _
    intro l
    induction l with
    | nil => exact List.Perm.refl _
    | cons p l ih => exact (hins p (sortBySeq l)).trans (List.Perm.cons p ih)
  sorted := by
    have hmem : ∀ (p : Packet) (l : List Packet) (x : Packet),
        x ∈ insertBySeq p l → x = p ∨ x ∈ l := by
      intro p l
      induction l with
      | nil => intro x hx; exact Or.inl (List.mem_singleton.1 hx)
      | cons q l ih =>
        intro x hx
        unfold insertBySeq at hx
        split at hx
        · rcases List.mem_cons.1 hx with h | h
          · exact Or.inr (h ▸ List.mem_cons_self _ _)
          · rcases ih x h with h | h
            · exact Or.inl h
            · exact Or.inr (List.mem_cons_of_mem _ h)
        · rcases List.mem_cons.1 hx with h | h
          · exact Or.inl h
          · exact Or.inr h
    have hins : ∀ (p : Packet) (l : List Packet),
        l.Pairwise (fun a b => a.packetSequence ≤ b.packetSequence) →
        (insertBySeq p l).Pairwise (fun a b => a.packetSequence ≤ b.packetSequence) := by
      intro p l
      induction l with
      | nil => intro _; exact List.pairwise_singleton _ _
      | cons q l ih =>
        intro h
        rw [List.pairwise_cons] at h
        unfold insertBySeq
        split
        · rename_i hlt
          rw [List.pairwise_cons]
          refine ⟨?_, ih h.2⟩
          intro x hx
          rcases hmem p l x hx with hx | hx
          · rw [hx]; exact Int.le_of_lt hlt
          · exact h.1 x hx
        · rename_i hlt
          rw [List.pairwise_cons]
          refine ⟨?_, List.pairwise_cons.2 h⟩
          intro x hx
          rcases List.mem_cons.1 hx with hx | hx
          · rw [hx]; exact Int.not_lt.1 hlt
          · exact Int.le_trans (Int.not_lt.1 hlt) (h.1 x hx)
    intro l
    induction l with
    | nil => exact List.Pairwise.nil
    | cons p l ih => exact hins p (sortBySeq l) ih

/-- The 17 bytes that carry a packet: the symbol, the side byte and the three
integers, each as four bytes with the most significant first. -/
def be32 (x : Int) : List Byte :=
  [⟨(x / 16777216 % 256).toNat, by omega⟩, ⟨(x / 65536 % 256).toNat, by omega⟩,
   ⟨(x / 256 % 256).toNat, by omega⟩, ⟨(x % 256).toNat, by omega⟩]

/-- Wire form of a packet as the record layout describes it (4 + 1 + 4 + 4 + 4 bytes). -/
def encodePacket (p : Packet) : List Byte :=
  p.symbol ++ [p.indicatorBuySell] ++ be32 p.quantity ++ be32 p.price ++ be32 p.packetSequence

/-- A well-formed 17-byte record: symbol `ABCD`, side `'B'`, quantity 10,
price 100 and the given sequence number. -/
def sampleSlot (seq : Int) : List Byte := encodePacket ⟨[65, 66, 67, 68], 66, 10, 100, seq⟩

/-- A server that sends the given snapshot and answers the repair request
`[2, b]` with one well-formed record of sequence number `b`; every `connect()`
and every `send()` succeeds. -/
def sampleWorld (snapshot : List RecvResult) : World := fun k =>
  if k = 0 then ⟨true, fun _ => 2, fun _ => snapshot⟩
  else ⟨true, fun _ => 2, fun req => [RecvResult.bytes (sampleSlot ((req.getD 1 0).val : Int))]⟩

/-- The packets of a list of 17-byte slots handled one after the other. -/
def processSlots (requestType : Int) (slots : List (List Byte)) (st : RecvState) : RecvState :=
  slots.foldl (fun acc slot => handlePacket requestType (decodeAt slot 0) acc) st

/-- A packet that fits the wire layout: a 4-byte symbol and three 32-bit integers. -/
def Packet.Encodable (p : Packet) : Prop :=
  p.symbol.length = 4 ∧
  (-2147483648 ≤ p.quantity ∧ p.quantity ≤ 2147483647) ∧
  (-2147483648 ≤ p.price ∧ p.price ≤ 2147483647) ∧
  (-2147483648 ≤ p.packetSequence ∧ p.packetSequence ≤ 2147483647)

/-- Sequence number carried by a 17-byte slot. -/
def seqOf (slot : List Byte) : Int := (decodeAt slot 0).packetSequence

/-- Two states of `receiveData` that agree on everything but the log. -/
def SameCore (a b : RecvState) : Prop :=
  a.missingPackets = b.missingPackets ∧ a.data = b.data ∧ a.sequence = b.sequence

/-- The log of `main` when the snapshot request has been issued. -/
def snapshotLog (w : World) : List Event :=
  [Event.connect true, Event.send requestType1 ((w 0).sendResult requestType1),
    Event.message "Request sent to server."]

/-- Line 218: the call of `receiveData` for the snapshot. -/
def snapshotPhase (w : World) : RecvOut :=
  receiveData true ((w 0).reads requestType1) [] 1 [] (snapshotLog w)

/-- The locals of `main` after at most `fuel` iterations of the drain loop. -/
def drained (w : World) (fuel : Nat) : Session :=
  drainLoop w fuel
    ⟨(snapshotPhase w).data, (snapshotPhase w).missingPackets, 1, (snapshotPhase w).log⟩

/-- A 17-byte record that fails validation: its side byte is `'X'`. -/
def malformedSlot (seq : Int) : List Byte := encodePacket ⟨[65, 66, 67, 68], 88, 10, 100, seq⟩

/-- The events of the network phases: everything but sorting and output. -/
def Event.isNetwork : Event → Bool
  | Event.sort => false
  | Event.writeJson _ => false
  | Event.totalPackets _ => false
  | _ => true

/-- A transport on which the first connection is made, `send()` is rejected
with `SOCKET_ERROR` and the peer then closes without sending anything. -/
def sendFailWorld : World := fun _ => ⟨true, fun _ => -1, fun _ => []⟩

/-- A transport on which the snapshot request is sent, one record is read and
the next `recv()` fails with `SOCKET_ERROR`. -/
def recvFailWorld : World :=
  fun _ => ⟨true, fun _ => 2, fun _ => [RecvResult.bytes (sampleSlot 1), RecvResult.error]⟩

/-- A transport on which no connection after the first can be made. -/
def noRepairWorld (snapshot : List RecvResult) : World := fun k =>
  ⟨decide (k = 0), fun _ => 2, fun _ => snapshot⟩

/-- The four bytes at `off`, most significant first, as an unsigned 32-bit value. -/
def unsigned32 (buf : List Byte) (off : Nat) : Nat :=
  (buf.getD off 0).val * 16777216 + (buf.getD (off + 1) 0).val * 65536 +
    (buf.getD (off + 2) 0).val * 256 + (buf.getD (off + 3) 0).val

/-- The gap arithmetic as the specification words it, over a list of sequence
numbers: with `expected` the running expected number, a record of sequence `s`
contributes `expected`, ..., `s - 1` and the next expected number is `s + 1`. -/
def specGapQueue (expected : Int) : List Int → List Int
  | [] => []
  | s :: rest =>
    (List.range (s - expected).toNat).map (fun (i : Nat) => expected + (i : Int)) ++
      specGapQueue (s + 1) rest

/-! ## Properties of the decoder and of the inner loop -/

theorem getD_mid (pre s post : List Byte) (k : Nat) (hk : k < s.length) :
    (pre ++ s ++ post).getD (pre.length + k) 0 = s.getD k 0 := by
  rw [List.append_assoc, List.getD_append_right _ _ _ _ (by omega)]
  rw [show pre.length + k - pre.length = k by omega, List.getD_append _ _ _ _ hk]

theorem readInt32_mid (pre s post : List Byte) (k : Nat) (hk : k + 3 < s.length) :
    readInt32 (pre ++ s ++ post) (pre.length + k) = readInt32 s k := by
  unfold readInt32
  have h0 := getD_mid pre s post k (by omega)
  have h1 := getD_mid pre s post (k + 1) (by omega)
  have h2 := getD_mid pre s post (k + 2) (by omega)
  have h3 := getD_mid pre s post (k + 3) (by omega)
  simp only [← Nat.add_assoc] at h1 h2 h3
  rw [h0, h1, h2, h3]

theorem decodeAt_mid (pre s post : List Byte) (hs : s.length = 17) :
    decodeAt (pre ++ s ++ post) pre.length = decodeAt s 0 := by
  have e5 := readInt32_mid pre s post 5 (by omega)
  have e9 := readInt32_mid pre s post 9 (by omega)
  have e13 := readInt32_mid pre s post 13 (by omega)
  have e4 := getD_mid pre s post 4 (by omega)
  have esym : ((pre ++ s ++ post).drop pre.length).take 4 = (s.drop 0).take 4 := by
    rw [List.append_assoc, List.drop_left, List.drop_zero,
      List.take_append_of_le_length (by omega)]
  simp only [decodeAt, e5, e9, e13, e4, esym, Nat.zero_add]

theorem processLoop_stop (rt : Int) (buf : List Byte) (fuel off : Nat) (st : RecvState)
    (h : buf.length < off + 17) : processLoop rt buf fuel off st = st := by
  cases fuel with
  | zero => rfl
  | succ n =>
    unfold processLoop
    by_cases h1 : off < buf.length
    · rw [if_pos h1, if_pos (by omega)]
    · rw [if_neg h1]

theorem processLoop_step (rt : Int) (buf : List Byte) (fuel off : Nat) (st : RecvState)
    (h : off + 17 ≤ buf.length) :
    processLoop rt buf (fuel + 1) off st =
      processLoop rt buf fuel (off + 17) (handlePacket rt (decodeAt buf off) st) := by
  conv => lhs; unfold processLoop
  rw [if_pos (by omega), if_neg (by omega)]

theorem processLoop_slots (rt : Int) (tail : List Byte) (ht : tail.length < 17) :
    ∀ (slots : List (List Byte)), (∀ s ∈ slots, s.length = 17) →
    ∀ (pre : List Byte) (fuel : Nat) (st : RecvState), slots.length ≤ fuel →
      processLoop rt (pre ++ slots.flatten ++ tail) fuel pre.length st =
        processSlots rt slots st := by
  intro slots
  induction slots with
  | nil =>
    intro _ pre fuel st _
    exact processLoop_stop rt _ fuel _ st (by simp; omega)
  | cons s ss ih =>
    intro hall pre fuel st hfuel
    have hs : s.length = 17 := hall s (List.mem_cons_self _ _)
    obtain ⟨n, rfl⟩ : ∃ n, fuel = n + 1 := ⟨fuel - 1, by simp at hfuel; omega⟩
    have hbuf : pre ++ (s :: ss).flatten ++ tail = pre ++ s ++ (ss.flatten ++ tail) := by
      simp [List.flatten, List.append_assoc]
    rw [processLoop_step rt _ n _ st (by rw [hbuf]; simp; omega)]
    rw [hbuf, decodeAt_mid pre s _ hs]
    have hpre : pre.length + 17 = (pre ++ s).length := by simp [hs]
    rw [hpre, ← List.append_assoc (pre ++ s)]
    rw [ih (fun x hx => hall x (List.mem_cons_of_mem _ hx)) (pre ++ s) n _
      (by simp at hfuel; omega)]
    rfl

theorem processBuffer_slots (rt : Int) (slots : List (List Byte)) (tail : List Byte)
    (hall : ∀ s ∈ slots, s.length = 17) (ht : tail.length < 17) (st : RecvState) :
    processBuffer rt (slots.flatten ++ tail) st = processSlots rt slots st := by
  have h := processLoop_slots rt tail ht slots hall [] (slots.flatten ++ tail).length st (by
    have : (slots.flatten).length = 17 * slots.length := by
      clear st ht
      induction slots with
      | nil => rfl
      | cons s ss ih =>
        have := hall s (List.mem_cons_self _ _)
        have := ih (fun x hx => hall x (List.mem_cons_of_mem _ hx))
        simp only [List.flatten, List.length_append, List.length_cons] at *
        omega
    rw [List.length_append, this]
    omega)
  simpa [processBuffer] using h


theorem encodePacket_length (p : Packet) (h : p.symbol.length = 4) :
    (encodePacket p).length = 17 := by
  simp [encodePacket, be32, h]

theorem decodeAt_encodePacket (p : Packet) (h : p.Encodable) :
    decodeAt (encodePacket p) 0 = p := by
  obtain ⟨sym, side, q, pr, sq⟩ := p
  obtain ⟨hsym, hq, hp, hs⟩ := h
  simp only at hsym hq hp hs
  match sym, hsym with
  | [a, b, c, d], _ =>
    simp only [decodeAt, encodePacket, be32, readInt32, wrap32, List.cons_append,
      List.nil_append, List.getD_cons_succ, List.getD_cons_zero, List.drop_zero, List.take,
      Nat.zero_add, Nat.reduceAdd, Packet.mk.injEq, true_and]
    refine ⟨?_, ?_, ?_⟩ <;> omega


@[simp] theorem trackGaps_data (rt : Int) (p : Packet) (st : RecvState) :
    (trackGaps rt p st).data = st.data := by
  unfold trackGaps; split <;> rfl

@[simp] theorem trackGaps_log (rt : Int) (p : Packet) (st : RecvState) :
    (trackGaps rt p st).log = st.log := by
  unfold trackGaps; split <;> rfl

theorem handlePacket_data (rt : Int) (p : Packet) (st : RecvState) :
    (handlePacket rt p st).data = st.data ++ [p].filter Packet.isValid := by
  unfold handlePacket
  cases h : p.isValid <;> simp [h]

theorem handlePacket_log (rt : Int) (p : Packet) (st : RecvState) :
    (handlePacket rt p st).log =
      st.log ++ List.replicate ([p].countP (fun x => !x.isValid)) Event.invalidPacket := by
  unfold handlePacket
  cases h : p.isValid <;> simp [h, List.replicate]

theorem processSlots_data (rt : Int) (slots : List (List Byte)) (st : RecvState) :
    (processSlots rt slots st).data =
      st.data ++ (slots.map (fun s => decodeAt s 0)).filter Packet.isValid := by
  induction slots generalizing st with
  | nil => simp [processSlots]
  | cons s ss ih =>
    have := ih (handlePacket rt (decodeAt s 0) st)
    simp only [processSlots, List.foldl_cons] at this ⊢
    rw [this, handlePacket_data, List.map_cons, List.append_assoc, ← List.filter_append]
    rfl

theorem processSlots_log (rt : Int) (slots : List (List Byte)) (st : RecvState) :
    (processSlots rt slots st).log =
      st.log ++ List.replicate
        ((slots.map (fun s => decodeAt s 0)).countP (fun x => !x.isValid))
        Event.invalidPacket := by
  induction slots generalizing st with
  | nil => simp [processSlots]
  | cons s ss ih =>
    have := ih (handlePacket rt (decodeAt s 0) st)
    simp only [processSlots, List.foldl_cons] at this ⊢
    rw [this, handlePacket_log, List.map_cons, List.append_assoc, ← List.replicate_add,
      ← List.countP_append]
    rfl

/-- A script made of a single read followed by the end of the stream: the
containers are those left by the inner loop on that read. -/
theorem receiveData_single (buf : List Byte) (q : List Int) (rt : Int) (data : List Packet)
    (log : List Event) :
    (receiveData true [RecvResult.bytes buf] q rt data log).data =
        (processBuffer rt buf ⟨q, data, 1, log ++ [Event.recv buf.length]⟩).data ∧
    (receiveData true [RecvResult.bytes buf] q rt data log).missingPackets =
        (processBuffer rt buf ⟨q, data, 1, log ++ [Event.recv buf.length]⟩).missingPackets := by
  cases buf with
  | nil => simp [receiveData, receiveLoop, processBuffer, processLoop]
  | cons b bs =>
    by_cases h : rt = 2 <;> simp [receiveData, receiveLoop, h]

/-- C1 (decode round-trip): a read made of the 17 bytes symbol, side, BE32
quantity, BE32 price, BE32 sequence, with the side `'B'` or `'S'` and the three
integers in the ranges of the claim, makes `receiveData` append exactly the
packet with these five fields, and encoding that packet gives the 17 bytes back. -/
theorem decode_roundtrip (symbol : List Byte) (side : Byte) (quantity price sequence : Int)
    (hsym : symbol.length = 4) (hside : side = 66 ∨ side = 83)
    (hq : 1 ≤ quantity ∧ quantity ≤ 2147483647)
    (hp : 0 ≤ price ∧ price ≤ 2147483647)
    (hs : 1 ≤ sequence ∧ sequence ≤ 2147483647)
    (missingPackets : List Int) (requestType : Int) (data : List Packet) (log : List Event) :
    (receiveData true
        [RecvResult.bytes (symbol ++ [side] ++ be32 quantity ++ be32 price ++ be32 sequence)]
        missingPackets requestType data log).data
      = data ++ [⟨symbol, side, quantity, price, sequence⟩] ∧
    encodePacket ⟨symbol, side, quantity, price, sequence⟩
      = symbol ++ [side] ++ be32 quantity ++ be32 price ++ be32 sequence := by
  refine ⟨?_, rfl⟩
  have henc : (⟨symbol, side, quantity, price, sequence⟩ : Packet).Encodable :=
    ⟨hsym, ⟨by show _ ≤ quantity; omega, by show quantity ≤ _; omega⟩,
      ⟨by show _ ≤ price; omega, by show price ≤ _; omega⟩,
      ⟨by show _ ≤ sequence; omega, by show sequence ≤ _; omega⟩⟩
  have hval : (⟨symbol, side, quantity, price, sequence⟩ : Packet).isValid = true := by
    have hne : symbol.isEmpty = false := by
      cases symbol with
      | nil => simp at hsym
      | cons a l => rfl
    rcases hside with h | h <;> simp [Packet.isValid, hne, h] <;> omega
  have hbuf : symbol ++ [side] ++ be32 quantity ++ be32 price ++ be32 sequence
      = [encodePacket ⟨symbol, side, quantity, price, sequence⟩].flatten ++ [] := by
    simp [encodePacket, List.flatten]
  rw [(receiveData_single _ _ _ _ _).1, hbuf, processBuffer_slots _ _ _ (by
    intro s hs
    rw [List.mem_singleton] at hs
    rw [hs]
    exact encodePacket_length _ hsym) (by decide), processSlots_data]
  simp [decodeAt_encodePacket _ henc, hval]

theorem wrap32_of_range (x : Int) (h1 : -2147483648 ≤ x) (h2 : x ≤ 2147483647) :
    wrap32 x = x := by
  unfold wrap32; omega

theorem wrap32_range (x : Int) : -2147483648 ≤ wrap32 x ∧ wrap32 x ≤ 2147483647 := by
  unfold wrap32; omega

theorem seqOf_le (slot : List Byte) : seqOf slot ≤ 2147483647 :=
  (wrap32_range _).2

theorem trackGaps_one (p : Packet) (st : RecvState)
    (h1 : 1 ≤ st.sequence) (h2 : st.sequence ≤ p.packetSequence)
    (h3 : p.packetSequence ≤ 2147483647) :
    (trackGaps 1 p st).missingPackets =
      st.missingPackets ++
        (List.range (p.packetSequence - st.sequence).toNat).map
          (fun (i : Nat) => st.sequence + (i : Int)) := by
  unfold trackGaps
  rw [if_pos rfl]
  simp only
  rw [wrap32_of_range _ (by omega) (by omega)]
  congr 1
  apply List.map_congr_left
  intro i hi
  rw [List.mem_range] at hi
  exact wrap32_of_range _ (by omega) (by omega)

theorem trackGaps_one_sequence (p : Packet) (st : RecvState) :
    (trackGaps 1 p st).sequence = wrap32 (p.packetSequence + 1) := by
  unfold trackGaps
  rw [if_pos rfl]

theorem handlePacket_missingPackets (rt : Int) (p : Packet) (st : RecvState) :
    (handlePacket rt p st).missingPackets = (trackGaps rt p st).missingPackets := by
  unfold handlePacket trackGaps
  cases p.isValid <;> (split <;> rfl)

theorem handlePacket_sequence (rt : Int) (p : Packet) (st : RecvState) :
    (handlePacket rt p st).sequence = (trackGaps rt p st).sequence := by
  unfold handlePacket trackGaps
  cases p.isValid <;> (split <;> rfl)

/-- The gap arithmetic over slots whose sequence numbers increase strictly from
at least the expected one: what is appended to the queue is strictly
increasing and holds exactly the numbers from the expected one up to the
largest sequence number that no slot carries. -/
theorem processSlots_gaps :
    ∀ (slots : List (List Byte)) (st : RecvState),
      (∀ s ∈ slots, 1 ≤ st.sequence ∧ st.sequence ≤ seqOf s) →
      (slots.map seqOf).Pairwise (· < ·) →
      ∃ G : List Int,
        (processSlots 1 slots st).missingPackets = st.missingPackets ++ G ∧
        G.Pairwise (· < ·) ∧
        ∀ g, g ∈ G ↔
          st.sequence ≤ g ∧ (∃ s ∈ slots, g ≤ seqOf s) ∧ ∀ s ∈ slots, g ≠ seqOf s := by
  intro slots
  induction slots with
  | nil =>
    intro st _ _
    exact ⟨[], by simp [processSlots], List.Pairwise.nil, by simp⟩
  | cons s rest ih =>
    intro st hst hinc
    obtain ⟨h1, h2⟩ := hst s (List.mem_cons_self _ _)
    have h3 : seqOf s ≤ 2147483647 := seqOf_le s
    rw [List.map_cons, List.pairwise_cons] at hinc
    obtain ⟨hlt, hinc'⟩ := hinc
    have hlt' : ∀ s' ∈ rest, seqOf s < seqOf s' :=
      fun s' hs' => hlt _ (List.mem_map_of_mem _ hs')
    let st1 := handlePacket 1 (decodeAt s 0) st
    have hq1 : st1.missingPackets = st.missingPackets ++
        (List.range (seqOf s - st.sequence).toNat).map
          (fun (i : Nat) => st.sequence + (i : Int)) := by
      show (handlePacket 1 (decodeAt s 0) st).missingPackets = _
      rw [handlePacket_missingPackets]
      exact trackGaps_one _ _ h1 h2 h3
    have hs1 : st1.sequence = wrap32 (seqOf s + 1) := by
      show (handlePacket 1 (decodeAt s 0) st).sequence = _
      rw [handlePacket_sequence]
      exact trackGaps_one_sequence _ _
    have hs1' : ∀ s' ∈ rest, st1.sequence = seqOf s + 1 := by
      intro s' hs'
      have := hlt' s' hs'
      have := seqOf_le s'
      rw [hs1]
      exact wrap32_of_range _ (by omega) (by omega)
    obtain ⟨G', hG', hpw', hmem'⟩ := ih st1 (by
      intro s' hs'
      have := hs1' s' hs'
      have := hlt' s' hs'
      omega) hinc'
    refine ⟨(List.range (seqOf s - st.sequence).toNat).map
          (fun (i : Nat) => st.sequence + (i : Int)) ++ G',
      ?_, ?_, ?_⟩
    · show (processSlots 1 rest st1).missingPackets = _
      rw [hG', hq1, List.append_assoc]
    · rw [List.pairwise_append]
      refine ⟨?_, hpw', ?_⟩
      · rw [List.pairwise_map]
        exact (List.pairwise_lt_range _).imp (by intro a b hab; omega)
      · intro a ha b hb
        rw [List.mem_map] at ha
        obtain ⟨i, hi, rfl⟩ := ha
        rw [List.mem_range] at hi
        obtain ⟨hb1, ⟨s', hs', _⟩, _⟩ := (hmem' b).1 hb
        have := hs1' s' hs'
        omega
    · intro g
      rw [List.mem_append, List.mem_map]
      constructor
      · rintro (⟨i, hi, rfl⟩ | hg)
        · rw [List.mem_range] at hi
          refine ⟨by omega, ⟨s, List.mem_cons_self _ _, by omega⟩, ?_⟩
          intro s' hs'
          rcases List.mem_cons.1 hs' with rfl | hs'
          · omega
          · have := hlt' s' hs'
            omega
        · obtain ⟨hb1, ⟨s', hs', hle⟩, hne⟩ := (hmem' g).1 hg
          have := hs1' s' hs'
          refine ⟨by omega, ⟨s', List.mem_cons_of_mem _ hs', hle⟩, ?_⟩
          intro s'' hs''
          rcases List.mem_cons.1 hs'' with rfl | hs''
          · omega
          · exact hne s'' hs''
      · rintro ⟨hg1, ⟨s', hs', hle⟩, hne⟩
        have hgs : g ≠ seqOf s := hne s (List.mem_cons_self _ _)
        by_cases hlt2 : g < seqOf s
        · left
          refine ⟨(g - st.sequence).toNat, ?_, by omega⟩
          rw [List.mem_range]
          omega
        · right
          have hs'r : s' ∈ rest := by
            rcases List.mem_cons.1 hs' with rfl | h
            · omega
            · exact h
          have := hs1' s' hs'r
          exact (hmem' g).2 ⟨by omega, ⟨s', hs'r, hle⟩,
            fun s'' hs'' => hne s'' (List.mem_cons_of_mem _ hs'')⟩

theorem SameCore.refl (a : RecvState) : SameCore a a := ⟨rfl, rfl, rfl⟩

theorem SameCore.trans {a b c : RecvState} (h1 : SameCore a b) (h2 : SameCore b c) :
    SameCore a c :=
  ⟨h1.1.trans h2.1, h1.2.1.trans h2.2.1, h1.2.2.trans h2.2.2⟩

theorem handlePacket_sameCore (rt : Int) (p : Packet) {a b : RecvState} (h : SameCore a b) :
    SameCore (handlePacket rt p a) (handlePacket rt p b) := by
  obtain ⟨h1, h2, h3⟩ := h
  unfold handlePacket trackGaps SameCore
  cases p.isValid <;> by_cases hrt : rt = 1 <;> simp [hrt, h1, h2, h3]

theorem processSlots_sameCore (rt : Int) (slots : List (List Byte)) :
    ∀ {a b : RecvState}, SameCore a b →
      SameCore (processSlots rt slots a) (processSlots rt slots b) := by
  induction slots with
  | nil => intro a b h; exact h
  | cons s ss ih =>
    intro a b h
    exact ih (handlePacket_sameCore rt _ h)

theorem processSlots_append (rt : Int) (xs ys : List (List Byte)) (st : RecvState) :
    processSlots rt (xs ++ ys) st = processSlots rt ys (processSlots rt xs st) := by
  simp [processSlots, List.foldl_append]

theorem flatten_length_pos (r : List (List Byte)) (hne : r ≠ [])
    (h17 : ∀ s ∈ r, s.length = 17) : r.flatten.length ≠ 0 := by
  cases r with
  | nil => exact absurd rfl hne
  | cons s ss =>
    have := h17 s (List.mem_cons_self _ _)
    simp only [List.flatten, List.length_append]
    omega

/-- Reads that each hold one or more whole slots, in a snapshot exchange: the
outer loop reaches the rest of the script in a state that agrees, the log
apart, with the slots of all these reads handled in one go. -/
theorem receiveLoop_wholeReads (rt : Int) (hrt : rt ≠ 2) (ending : List RecvResult) :
    ∀ (reads : List (List (List Byte))) (st : RecvState),
      (∀ r ∈ reads, r ≠ []) → (∀ r ∈ reads, ∀ s ∈ r, s.length = 17) →
      ∃ st', receiveLoop rt (reads.map (fun r => RecvResult.bytes r.flatten) ++ ending) st =
          receiveLoop rt ending st' ∧
        SameCore st' (processSlots rt reads.flatten st) := by
  intro reads
  induction reads with
  | nil => intro st _ _; exact ⟨st, rfl, SameCore.refl _⟩
  | cons r rs ih =>
    intro st hne h17
    have hr := h17 r (List.mem_cons_self _ _)
    have hlen := flatten_length_pos r (hne r (List.mem_cons_self _ _)) hr
    obtain ⟨st', hst', hcore⟩ :=
      ih (processBuffer rt r.flatten { st with log := st.log ++ [Event.recv r.flatten.length] })
        (fun x hx => hne x (List.mem_cons_of_mem _ hx))
        (fun x hx => h17 x (List.mem_cons_of_mem _ hx))
    refine ⟨st', ?_, ?_⟩
    · rw [List.map_cons, List.cons_append]
      conv => lhs; unfold receiveLoop
      simp only [if_neg hlen, if_neg hrt]
      exact hst'
    · refine hcore.trans ?_
      have hb := processBuffer_slots rt r [] hr (by decide)
        { st with log := st.log ++ [Event.recv r.flatten.length] }
      rw [List.append_nil] at hb
      rw [hb, List.flatten, processSlots_append]
      exact processSlots_sameCore rt _ (processSlots_sameCore rt _ ⟨rfl, rfl, rfl⟩)

theorem receiveLoop_nil_sameCore (rt : Int) (st : RecvState) :
    SameCore (receiveLoop rt [] st).2 st := ⟨rfl, rfl, rfl⟩

theorem isValid_seq_pos (p : Packet) (h : p.isValid = true) : 1 ≤ p.packetSequence := by
  simp [Packet.isValid] at h
  omega

/-- C2 (gap detection): in a snapshot exchange whose reads each hold one or more
whole 17-byte slots, all decoding to valid packets with strictly increasing
sequence numbers, the queue left by `receiveData` (started empty) is strictly
increasing, so free of repetitions, and holds exactly the integers from 1 up to
the largest sequence number received that no received packet carries. -/
theorem gap_detection (reads : List (List (List Byte))) (data : List Packet) (log : List Event)
    (hne : ∀ r ∈ reads, r ≠ [])
    (h17 : ∀ r ∈ reads, ∀ s ∈ r, s.length = 17)
    (hvalid : ∀ s ∈ reads.flatten, (decodeAt s 0).isValid = true)
    (hinc : (reads.flatten.map seqOf).Pairwise (· < ·)) :
    (receiveData true (reads.map (fun r => RecvResult.bytes r.flatten)) [] 1 data
        log).missingPackets.Pairwise (· < ·) ∧
    ∀ g : Int,
      g ∈ (receiveData true (reads.map (fun r => RecvResult.bytes r.flatten)) [] 1 data
          log).missingPackets ↔
        1 ≤ g ∧ (∃ s ∈ reads.flatten, g ≤ seqOf s) ∧ ∀ s ∈ reads.flatten, g ≠ seqOf s := by
  obtain ⟨st', hst', hcore⟩ :=
    receiveLoop_wholeReads 1 (by decide) [] reads ⟨[], data, 1, log⟩ hne h17
  rw [List.append_nil] at hst'
  obtain ⟨G, hG, hpw, hmem⟩ := processSlots_gaps reads.flatten ⟨[], data, 1, log⟩
    (fun s hs => ⟨le_refl _, isValid_seq_pos _ (hvalid s hs)⟩) hinc
  have hq : (receiveData true (reads.map (fun r => RecvResult.bytes r.flatten)) [] 1 data
      log).missingPackets = G := by
    show (receiveLoop 1 _ _).2.missingPackets = G
    rw [hst', (receiveLoop_nil_sameCore 1 st').1, hcore.1, hG]
    rfl
  rw [hq]
  exact ⟨hpw, hmem⟩

theorem trackGaps_missingPackets_of_ne (rt : Int) (hrt : rt ≠ 1) (p : Packet) (st : RecvState) :
    (trackGaps rt p st).missingPackets = st.missingPackets := by
  unfold trackGaps
  rw [if_neg hrt]

theorem processLoop_missingPackets_of_ne (rt : Int) (hrt : rt ≠ 1) (buf : List Byte) :
    ∀ (fuel off : Nat) (st : RecvState),
      (processLoop rt buf fuel off st).missingPackets = st.missingPackets := by
  intro fuel
  induction fuel with
  | zero => intro off st; rfl
  | succ n ih =>
    intro off st
    unfold processLoop
    split
    · split
      · rfl
      · rw [ih, handlePacket_missingPackets, trackGaps_missingPackets_of_ne rt hrt]
    · rfl

/-- A repair exchange whose single read is one 17-byte slot. -/
theorem receiveData_repair_slot (slot : List Byte) (hs : slot.length = 17) (q : List Int)
    (data : List Packet) (log : List Event) :
    (receiveData true [RecvResult.bytes slot] q 2 data log).ret = 17 ∧
    (receiveData true [RecvResult.bytes slot] q 2 data log).missingPackets = q ∧
    (receiveData true [RecvResult.bytes slot] q 2 data log).data =
      data ++ [decodeAt slot 0].filter Packet.isValid := by
  have hne : slot.length ≠ 0 := by omega
  refine ⟨?_, ?_, ?_⟩
  · simp [receiveData, receiveLoop, hne, hs]
  · rw [(receiveData_single _ _ _ _ _).2]
    exact processLoop_missingPackets_of_ne 2 (by decide) _ _ _ _
  · rw [(receiveData_single _ _ _ _ _).1]
    have hb := processBuffer_slots 2 [slot] [] (by simpa using hs) (by decide)
      ⟨q, data, 1, log ++ [Event.recv slot.length]⟩
    simp only [List.flatten, List.append_nil] at hb
    rw [hb, processSlots_data]
    rfl

theorem sendData_ne (sendResult : Int) : sendData true sendResult ≠ -1 := by
  unfold sendData
  simp only [Bool.not_true, Bool.false_eq_true, if_false]
  split <;> omega

theorem requestType2_small (g : Int) (h0 : 0 ≤ g) (h1 : g ≤ 255) :
    requestType2 g = [2, ⟨g.toNat, by omega⟩] := by
  simp only [requestType2, byteOfChar, charOfInt, List.cons.injEq, Fin.mk.injEq, true_and,
    and_true]
  omega

/-- One iteration of the drain loop when the connection is made and the server
answers the request with one 17-byte slot. -/
theorem drainStep_repair (w : World) (s : Session) (g : Int) (rest : List Int)
    (slot : List Byte) (hq : s.missingPackets = g :: rest)
    (hc : (w s.conns).connectOk = true)
    (hreads : (w s.conns).reads (requestType2 g) = [RecvResult.bytes slot])
    (hs : slot.length = 17) :
    (drainStep w s).missingPackets = rest ∧
    (drainStep w s).dataPackets = s.dataPackets ++ [decodeAt slot 0].filter Packet.isValid ∧
    (drainStep w s).conns = s.conns + 1 := by
  obtain ⟨d, q, c, l⟩ := s
  simp only at hq hc hreads
  subst hq
  have h := receiveData_repair_slot slot hs rest d
    (l ++ [Event.connect true, Event.send (requestType2 g) ((w c).sendResult (requestType2 g))])
  simp only [drainStep, hc, hreads, Bool.not_true, Bool.false_eq_true, if_false,
    if_neg (sendData_ne _)]
  exact ⟨h.2.1, h.2.2, trivial⟩

theorem drainLoop_done (w : World) (fuel : Nat) (s : Session) (h : s.missingPackets = []) :
    drainLoop w fuel s = s := by
  cases fuel with
  | zero => rfl
  | succ n => simp [drainLoop, h]

/-- The drain loop against a server that answers every repair request for a
sequence number from 1 to 255 with one valid packet of that number: the queue
is emptied and one packet is appended for each entry, in queue order. -/
theorem drainLoop_repairs (w : World)
    (hserver : ∀ k : Nat, 1 ≤ k → ∀ b : Byte, 1 ≤ b.val →
      (w k).connectOk = true ∧
      ∃ slot, (w k).reads [2, b] = [RecvResult.bytes slot] ∧ slot.length = 17 ∧
        (decodeAt slot 0).isValid = true ∧ seqOf slot = (b.val : Int)) :
    ∀ (G : List Int) (s : Session) (fuel : Nat),
      (∀ g ∈ G, 1 ≤ g ∧ g ≤ 255) → s.missingPackets = G → 1 ≤ s.conns → G.length ≤ fuel →
      ∃ ps : List Packet,
        (drainLoop w fuel s).missingPackets = [] ∧
        (drainLoop w fuel s).dataPackets = s.dataPackets ++ ps ∧
        ps.map (fun p => p.packetSequence) = G ∧
        ∀ p ∈ ps, p.isValid = true := by
  intro G
  induction G with
  | nil =>
    intro s fuel _ hq _ _
    refine ⟨[], ?_, ?_, rfl, by simp⟩
    · rw [drainLoop_done w fuel s hq, hq]
    · rw [drainLoop_done w fuel s hq, List.append_nil]
  | cons g rest ih =>
    intro s fuel hG hq hk hfuel
    obtain ⟨n, rfl⟩ : ∃ n, fuel = n + 1 := ⟨fuel - 1, by simp at hfuel; omega⟩
    obtain ⟨hg1, hg2⟩ := hG g (List.mem_cons_self _ _)
    obtain ⟨hc, slot, hreads, hs, hv, hseq⟩ :=
      hserver s.conns hk ⟨g.toNat, by omega⟩ (by show 1 ≤ g.toNat; omega)
    rw [← requestType2_small g (by omega) hg2] at hreads
    obtain ⟨e1, e2, e3⟩ := drainStep_repair w s g rest slot hq hc hreads hs
    obtain ⟨ps, h1, h2, h3, h4⟩ := ih (drainStep w s) n
      (fun x hx => hG x (List.mem_cons_of_mem _ hx)) e1 (by omega) (by simp at hfuel; omega)
    have hstep : drainLoop w (n + 1) s = drainLoop w n (drainStep w s) := by
      simp [drainLoop, hq]
    rw [hstep]
    refine ⟨decodeAt slot 0 :: ps, h1, ?_, ?_, ?_⟩
    · rw [h2, e2]
      simp [hv]
    · have hg : seqOf slot = g := by
        rw [hseq]
        exact Int.toNat_of_nonneg (by omega)
      rw [List.map_cons, h3]
      exact congrArg (fun x => x :: rest) hg
    · intro p hp
      rcases List.mem_cons.1 hp with rfl | hp
      · exact hv
      · exact h4 p hp

/-- A snapshot exchange made of whole-slot reads followed by the end of the
stream: the returned value, the packets stored and the queue. -/
theorem receiveData_wholeReads (reads : List (List (List Byte))) (q : List Int)
    (data : List Packet) (log : List Event)
    (hne : ∀ r ∈ reads, r ≠ []) (h17 : ∀ r ∈ reads, ∀ s ∈ r, s.length = 17) :
    (receiveData true (reads.map (fun r => RecvResult.bytes r.flatten)) q 1 data log).ret = 0 ∧
    (receiveData true (reads.map (fun r => RecvResult.bytes r.flatten)) q 1 data log).data =
      data ++ (reads.flatten.map (fun s => decodeAt s 0)).filter Packet.isValid ∧
    (receiveData true (reads.map (fun r => RecvResult.bytes r.flatten)) q 1 data
        log).missingPackets =
      (processSlots 1 reads.flatten ⟨q, data, 1, log⟩).missingPackets := by
  obtain ⟨st', hst', hcore⟩ :=
    receiveLoop_wholeReads 1 (by decide) [] reads ⟨q, data, 1, log⟩ hne h17
  rw [List.append_nil] at hst'
  refine ⟨?_, ?_, ?_⟩
  · show (receiveLoop 1 _ _).1 = 0
    rw [hst']
    rfl
  · show (receiveLoop 1 _ _).2.data = _
    rw [hst', (receiveLoop_nil_sameCore 1 st').2.1, hcore.2.1, processSlots_data]
  · show (receiveLoop 1 _ _).2.missingPackets = _
    rw [hst', (receiveLoop_nil_sameCore 1 st').1, hcore.1]

/-- The sequence numbers of the sorted packets are the sorted arrangement of
the sequence numbers of the packets. -/
theorem sort_seqs_eq (srt : StdSort) (l : List Packet) (T : List Int)
    (hT : T.Pairwise (· ≤ ·)) (hperm : (l.map (fun p => p.packetSequence)).Perm T) :
    (srt.sort l).map (fun p => p.packetSequence) = T := by
  have h1 : ((srt.sort l).map (fun p => p.packetSequence)).Pairwise (· ≤ ·) := by
    rw [List.pairwise_map]
    exact srt.sorted l
  have h2 : ((srt.sort l).map (fun p => p.packetSequence)).Perm T :=
    ((srt.perm l).map _).trans hperm
  exact List.eq_of_perm_of_sorted h2 h1 hT

/-- The sequence numbers received in the snapshot together with the gaps found
are, up to order, the numbers 1 to `sn`. -/
theorem seqs_gaps_perm (seqs G : List Int) (sn : Nat)
    (hinc : seqs.Pairwise (· < ·)) (hpos : ∀ x ∈ seqs, 1 ≤ x)
    (hsn : (sn : Int) ∈ seqs) (hmax : ∀ x ∈ seqs, x ≤ (sn : Int))
    (hpw : G.Pairwise (· < ·))
    (hmem : ∀ g, g ∈ G ↔ 1 ≤ g ∧ (∃ x ∈ seqs, g ≤ x) ∧ ∀ x ∈ seqs, g ≠ x) :
    (seqs ++ G).Perm ((List.range' 1 sn).map (fun (n : Nat) => (n : Int))) := by
  have hnd1 : (seqs ++ G).Nodup := by
    refine List.Nodup.append hinc.nodup hpw.nodup ?_
    intro x hx hg
    exact ((hmem x).1 hg).2.2 x hx rfl
  have hnd2 : ((List.range' 1 sn).map (fun (n : Nat) => (n : Int))).Nodup := by
    refine List.Nodup.map ?_ (List.nodup_range' 1 sn)
    intro a b hab
    exact Int.ofNat.inj hab
  rw [List.perm_ext_iff_of_nodup hnd1 hnd2]
  intro x
  rw [List.mem_append, List.mem_map]
  constructor
  · intro hx
    have h1 : 1 ≤ x ∧ x ≤ (sn : Int) := by
      rcases hx with hx | hx
      · exact ⟨hpos x hx, hmax x hx⟩
      · obtain ⟨h1, ⟨y, hy, hle⟩, _⟩ := (hmem x).1 hx
        exact ⟨h1, le_trans hle (hmax y hy)⟩
    refine ⟨x.toNat, ?_, Int.toNat_of_nonneg (by omega)⟩
    rw [List.mem_range'_1]
    omega
  · rintro ⟨n, hn, rfl⟩
    rw [List.mem_range'_1] at hn
    by_cases hx : (n : Int) ∈ seqs
    · exact Or.inl hx
    · right
      refine (hmem _).2 ⟨by omega, ⟨(sn : Int), hsn, by omega⟩, ?_⟩
      intro y hy heq
      exact hx (heq ▸ hy)

theorem rangeCast_sorted (sn : Nat) :
    ((List.range' 1 sn).map (fun (n : Nat) => (n : Int))).Pairwise (· ≤ ·) := by
  rw [List.pairwise_map]
  exact (List.pairwise_lt_range' 1 sn).imp (by intro a b hab; omega)

/-- The run of `main` once the first connection is made: the send result is
never -1, so the snapshot is always read; a read error ends the run with
status 1, otherwise the queue is drained, the packets are sorted and written. -/
theorem main_eq (srt : StdSort) (w : World) (fuel : Nat) (hconn : (w 0).connectOk = true) :
    main srt w fuel =
      if (snapshotPhase w).ret = -1 then
        some ⟨1, (snapshotPhase w).data, (snapshotPhase w).missingPackets, (snapshotPhase w).log⟩
      else if (drained w fuel).missingPackets.isEmpty then
        some ⟨0, srt.sort (drained w fuel).dataPackets, (drained w fuel).missingPackets,
          (drained w fuel).log ++ [Event.sort, Event.writeJson (srt.sort (drained w fuel).dataPackets),
            Event.totalPackets (srt.sort (drained w fuel).dataPackets).length,
            Event.message "Server Disconnected."]⟩
      else none := by
  unfold main
  simp only [hconn, Bool.not_true, Bool.false_eq_true, if_false, if_neg (sendData_ne _)]
  rfl

/-- C3 (end-to-end repair): when the snapshot is delivered in reads of whole
slots that decode to valid packets with strictly increasing sequence numbers,
the largest being `sn` with `sn` at most 255, and the server answers every repair
request `[2, b]` with exactly one valid record of sequence number `b`, a run
of `main` with enough fuel returns: status 0, an empty queue, and the list
handed to the output step carries exactly the sequence numbers 1, 2, ..., `sn`
in this order. -/
theorem end_to_end_repair (srt : StdSort) (w : World) (snapshot : List (List (List Byte)))
    (sn : Nat) (fuel : Nat)
    (hconn : (w 0).connectOk = true)
    (hsnap : (w 0).reads [1, 0] = snapshot.map (fun r => RecvResult.bytes r.flatten))
    (hne : ∀ r ∈ snapshot, r ≠ [])
    (h17 : ∀ r ∈ snapshot, ∀ s ∈ r, s.length = 17)
    (hvalid : ∀ s ∈ snapshot.flatten, (decodeAt s 0).isValid = true)
    (hinc : (snapshot.flatten.map seqOf).Pairwise (· < ·))
    (hsn : ∃ s ∈ snapshot.flatten, seqOf s = (sn : Int))
    (hmax : ∀ s ∈ snapshot.flatten, seqOf s ≤ (sn : Int))
    (h255 : sn ≤ 255)
    (hserver : ∀ k : Nat, 1 ≤ k → ∀ b : Byte, 1 ≤ b.val →
      (w k).connectOk = true ∧
      ∃ slot, (w k).reads [2, b] = [RecvResult.bytes slot] ∧ slot.length = 17 ∧
        (decodeAt slot 0).isValid = true ∧ seqOf slot = (b.val : Int))
    (hfuel : sn ≤ fuel) :
    ∃ out : Outcome,
      main srt w fuel = some out ∧
      out.status = 0 ∧
      out.missingPackets = [] ∧
      Event.writeJson out.dataPackets ∈ out.log ∧
      out.dataPackets.map (fun p => p.packetSequence) =
        (List.range' 1 sn).map (fun (n : Nat) => (n : Int)) := by
  have hreq : requestType1 = [1, 0] := rfl
  obtain ⟨hret, hdata, hq⟩ := receiveData_wholeReads snapshot [] [] (snapshotLog w) hne h17
  obtain ⟨G, hG, hpw, hmem⟩ := processSlots_gaps snapshot.flatten ⟨[], [], 1, snapshotLog w⟩
    (fun s hs => ⟨le_refl _, isValid_seq_pos _ (hvalid s hs)⟩) hinc
  rw [hG, List.nil_append] at hq
  rw [List.nil_append, List.filter_eq_self.2 (by
    intro p hp
    obtain ⟨s, hs, rfl⟩ := List.mem_map.1 hp
    exact hvalid s hs)] at hdata
  rw [← hsnap, ← hreq] at hret hdata hq
  change (snapshotPhase w).ret = 0 at hret
  change (snapshotPhase w).data = _ at hdata
  change (snapshotPhase w).missingPackets = G at hq
  have hperm := seqs_gaps_perm (snapshot.flatten.map seqOf) G sn hinc
    (by
      intro x hx
      obtain ⟨s, hs, rfl⟩ := List.mem_map.1 hx
      exact isValid_seq_pos _ (hvalid s hs))
    (by
      obtain ⟨s, hs, e⟩ := hsn
      exact e ▸ List.mem_map_of_mem _ hs)
    (by
      intro x hx
      obtain ⟨s, hs, rfl⟩ := List.mem_map.1 hx
      exact hmax s hs)
    hpw
    (by
      intro g
      rw [hmem g]
      constructor
      · rintro ⟨h1, ⟨s, hs, hle⟩, hne'⟩
        refine ⟨h1, ⟨seqOf s, List.mem_map_of_mem _ hs, hle⟩, ?_⟩
        intro x hx
        obtain ⟨s', hs', rfl⟩ := List.mem_map.1 hx
        exact hne' s' hs'
      · rintro ⟨h1, ⟨x, hx, hle⟩, hne'⟩
        obtain ⟨s, hs, rfl⟩ := List.mem_map.1 hx
        exact ⟨h1, ⟨s, hs, hle⟩, fun s' hs' => hne' _ (List.mem_map_of_mem _ hs')⟩)
  have hGrange : ∀ g ∈ G, 1 ≤ g ∧ g ≤ 255 := by
    intro g hg
    obtain ⟨h1, ⟨s, hs, hle⟩, _⟩ := (hmem g).1 hg
    have := hmax s hs
    exact ⟨h1, by omega⟩
  have hGlen : G.length ≤ fuel := by
    have := hperm.length_eq
    simp only [List.length_append, List.length_map, List.length_range'] at this
    omega
  obtain ⟨ps, hd1, hd2, hd3, _⟩ := drainLoop_repairs w hserver G
    ⟨(snapshotPhase w).data, (snapshotPhase w).missingPackets, 1, (snapshotPhase w).log⟩
    fuel hGrange hq (le_refl _) hGlen
  change (drained w fuel).missingPackets = [] at hd1
  change (drained w fuel).dataPackets = (snapshotPhase w).data ++ ps at hd2
  have hmain := main_eq srt w fuel hconn
  rw [if_neg (by rw [hret]; decide), hd1] at hmain
  refine ⟨_, hmain, rfl, rfl, by simp, ?_⟩
  apply sort_seqs_eq srt _ _ (rangeCast_sorted sn)
  rw [hd2, hdata, List.map_append, hd3, List.map_map]
  exact hperm

theorem sampleSlot_decode (seq : Int) (h1 : -2147483648 ≤ seq) (h2 : seq ≤ 2147483647) :
    decodeAt (sampleSlot seq) 0 = ⟨[65, 66, 67, 68], 66, 10, 100, seq⟩ :=
  decodeAt_encodePacket _
    ⟨rfl, ⟨by show (-2147483648 : Int) ≤ 10; decide, by show (10 : Int) ≤ 2147483647; decide⟩,
      ⟨by show (-2147483648 : Int) ≤ 100; decide, by show (100 : Int) ≤ 2147483647; decide⟩,
      ⟨h1, h2⟩⟩

theorem sampleSlot_length (seq : Int) : (sampleSlot seq).length = 17 :=
  encodePacket_length _ rfl

/-- The sample server answers every repair request for a sequence number from
1 to 255 with one valid record of that number. -/
theorem sampleWorld_repairs (snapshot : List RecvResult) :
    ∀ k : Nat, 1 ≤ k → ∀ b : Byte, 1 ≤ b.val →
      (sampleWorld snapshot k).connectOk = true ∧
      ∃ slot, (sampleWorld snapshot k).reads [2, b] = [RecvResult.bytes slot] ∧
        slot.length = 17 ∧ (decodeAt slot 0).isValid = true ∧ seqOf slot = (b.val : Int) := by
  intro k hk b hb
  have hk0 : k ≠ 0 := by omega
  have hdec := sampleSlot_decode (b.val : Int) (by omega) (by omega)
  refine ⟨by simp [sampleWorld, hk0], sampleSlot (b.val : Int), by simp [sampleWorld, hk0],
    sampleSlot_length _, ?_, ?_⟩
  · rw [hdec]
    simp [Packet.isValid]
    omega
  · unfold seqOf
    rw [hdec]

/-- C1 at the record `MSFT`, side `'B'`, quantity 50, price 100, sequence 1. -/
theorem decode_roundtrip_witness :
    (receiveData true
        [RecvResult.bytes ([77, 83, 70, 84] ++ [66] ++ be32 50 ++ be32 100 ++ be32 1)]
        [] 1 [] []).data = [] ++ [⟨[77, 83, 70, 84], 66, 50, 100, 1⟩] ∧
    encodePacket ⟨[77, 83, 70, 84], 66, 50, 100, 1⟩
      = [77, 83, 70, 84] ++ [66] ++ be32 50 ++ be32 100 ++ be32 1 :=
  decode_roundtrip [77, 83, 70, 84] 66 50 100 1 rfl (by decide) (by decide) (by decide)
    (by decide) [] 1 [] []

/-- C2 at a snapshot read as the records 2, 3 and then the record 6: the queue
is 1, 4, 5. -/
theorem gap_detection_witness :
    (receiveData true
        ([[sampleSlot 2, sampleSlot 3], [sampleSlot 6]].map
          (fun r => RecvResult.bytes r.flatten)) [] 1 [] []).missingPackets = [1, 4, 5] ∧
    (receiveData true
        ([[sampleSlot 2, sampleSlot 3], [sampleSlot 6]].map
          (fun r => RecvResult.bytes r.flatten)) [] 1 [] []).missingPackets.Pairwise (· < ·) ∧
    ∀ g : Int,
      g ∈ (receiveData true
          ([[sampleSlot 2, sampleSlot 3], [sampleSlot 6]].map
            (fun r => RecvResult.bytes r.flatten)) [] 1 [] []).missingPackets ↔
        1 ≤ g ∧ (∃ s ∈ [[sampleSlot 2, sampleSlot 3], [sampleSlot 6]].flatten, g ≤ seqOf s) ∧
          ∀ s ∈ [[sampleSlot 2, sampleSlot 3], [sampleSlot 6]].flatten, g ≠ seqOf s :=
  ⟨by decide,
    gap_detection [[sampleSlot 2, sampleSlot 3], [sampleSlot 6]] [] [] (by decide) (by decide)
      (by decide) (by decide)⟩

/-- C3 at the snapshot 1, 2, 4, 5 read in two reads: the queue after the
snapshot phase is `[3]` and the list written has the sequence numbers 1 to 5. -/
theorem end_to_end_repair_witness :
    (snapshotPhase (sampleWorld
        ([[sampleSlot 1, sampleSlot 2], [sampleSlot 4, sampleSlot 5]].map
          (fun r => RecvResult.bytes r.flatten)))).missingPackets = [3] ∧
    ∃ out : Outcome,
      main insertionSort (sampleWorld
        ([[sampleSlot 1, sampleSlot 2], [sampleSlot 4, sampleSlot 5]].map
          (fun r => RecvResult.bytes r.flatten))) 5 = some out ∧
      out.status = 0 ∧
      out.missingPackets = [] ∧
      Event.writeJson out.dataPackets ∈ out.log ∧
      out.dataPackets.map (fun p => p.packetSequence) = [1, 2, 3, 4, 5] :=
  ⟨by decide,
    end_to_end_repair insertionSort _ [[sampleSlot 1, sampleSlot 2], [sampleSlot 4, sampleSlot 5]]
      5 5 rfl rfl (by decide) (by decide) (by decide) (by decide) (by decide) (by decide)
      (by decide) (sampleWorld_repairs _) (le_refl _)⟩

/-- The inner loop on a buffer of `n` whole slots, seen through offsets: from
offset `17 * k` on, the packets decoded at the offsets `17 * i` are handled in
order; the valid ones are stored and each other one logs one event. -/
theorem processLoop_aligned (rt : Int) (buf : List Byte) (n : Nat) (hlen : buf.length = 17 * n) :
    ∀ (m k fuel : Nat) (st : RecvState), k + m = n → m ≤ fuel →
      (processLoop rt buf fuel (17 * k) st).data =
        st.data ++ ((List.range' k m).map (fun i => decodeAt buf (17 * i))).filter Packet.isValid ∧
      (processLoop rt buf fuel (17 * k) st).log =
        st.log ++ List.replicate
          (((List.range' k m).map (fun i => decodeAt buf (17 * i))).countP (fun p => !p.isValid))
          Event.invalidPacket := by
  intro m
  induction m with
  | zero =>
    intro k fuel st hk _
    rw [processLoop_stop rt buf fuel _ st (by omega)]
    simp
  | succ m ih =>
    intro k fuel st hk hfuel
    obtain ⟨f, rfl⟩ : ∃ f, fuel = f + 1 := ⟨fuel - 1, by omega⟩
    rw [processLoop_step rt buf f _ st (by omega)]
    have h17 : 17 * k + 17 = 17 * (k + 1) := by omega
    rw [h17]
    obtain ⟨e1, e2⟩ := ih (k + 1) f (handlePacket rt (decodeAt buf (17 * k)) st) (by omega)
      (by omega)
    rw [e1, e2, handlePacket_data, handlePacket_log]
    constructor
    · rw [List.range'_succ, List.map_cons, List.append_assoc, ← List.filter_append]
      rfl
    · rw [List.range'_succ, List.map_cons, List.append_assoc, ← List.replicate_add,
        ← List.countP_append]
      rfl

theorem receiveData_single_log (buf : List Byte) (q : List Int) (rt : Int) (data : List Packet)
    (log : List Event) :
    ∃ tl, (receiveData true [RecvResult.bytes buf] q rt data log).log =
        (processBuffer rt buf ⟨q, data, 1, log ++ [Event.recv buf.length]⟩).log ++ tl ∧
      tl.count Event.invalidPacket = 0 := by
  cases buf with
  | nil => exact ⟨[], by simp [receiveData, receiveLoop, processBuffer, processLoop], rfl⟩
  | cons b bs =>
    by_cases h : rt = 2
    · exact ⟨[], by simp [receiveData, receiveLoop, h], rfl⟩
    · exact ⟨[Event.recv 0], by simp [receiveData, receiveLoop, h], by decide⟩

/-- C5 (malformed record isolation): for a read of `n` whole 17-byte slots the
packets appended to the result set are exactly the packets decoded at the
offsets 0, 17, ..., 17 * (n - 1) that pass `isValid`, in buffer order, and one
invalid-packet event is logged for each of the others: a failing slot is
skipped by exactly 17 bytes and decoding goes on. -/
theorem malformed_isolation (buf : List Byte) (n : Nat) (hlen : buf.length = 17 * n)
    (missingPackets : List Int) (requestType : Int) (data : List Packet) (log : List Event) :
    (receiveData true [RecvResult.bytes buf] missingPackets requestType data log).data =
      data ++ ((List.range n).map (fun i => decodeAt buf (17 * i))).filter Packet.isValid ∧
    (receiveData true [RecvResult.bytes buf] missingPackets requestType data log).log.count
        Event.invalidPacket =
      log.count Event.invalidPacket +
        ((List.range n).map (fun i => decodeAt buf (17 * i))).countP (fun p => !p.isValid) := by
  obtain ⟨e1, e2⟩ := processLoop_aligned requestType buf n hlen n 0 buf.length
    ⟨missingPackets, data, 1, log ++ [Event.recv buf.length]⟩ (by omega) (by omega)
  rw [← List.range_eq_range'] at e1 e2
  constructor
  · rw [(receiveData_single _ _ _ _ _).1]
    exact e1
  · obtain ⟨tl, h1, h2⟩ := receiveData_single_log buf missingPackets requestType data log
    rw [h1]
    unfold processBuffer
    rw [e2]
    simp only [List.count_append, h2, List.count_replicate_self]
    simp

/-- C5 at a read made of a valid, a malformed and a valid record: exactly the
first and the third are stored and one invalid-packet event is logged. -/
theorem malformed_isolation_witness :
    (sampleSlot 1 ++ malformedSlot 2 ++ sampleSlot 3).length = 17 * 3 ∧
    (receiveData true [RecvResult.bytes (sampleSlot 1 ++ malformedSlot 2 ++ sampleSlot 3)]
        [] 1 [] []).data =
      [⟨[65, 66, 67, 68], 66, 10, 100, 1⟩, ⟨[65, 66, 67, 68], 66, 10, 100, 3⟩] ∧
    ((receiveData true [RecvResult.bytes (sampleSlot 1 ++ malformedSlot 2 ++ sampleSlot 3)]
        [] 1 [] []).data =
      [] ++ ((List.range 3).map
        (fun i => decodeAt (sampleSlot 1 ++ malformedSlot 2 ++ sampleSlot 3) (17 * i))).filter
          Packet.isValid ∧
    (receiveData true [RecvResult.bytes (sampleSlot 1 ++ malformedSlot 2 ++ sampleSlot 3)]
        [] 1 [] []).log.count Event.invalidPacket =
      ([] : List Event).count Event.invalidPacket +
        ((List.range 3).map
          (fun i => decodeAt (sampleSlot 1 ++ malformedSlot 2 ++ sampleSlot 3) (17 * i))).countP
            (fun p => !p.isValid)) :=
  ⟨by decide, by decide,
    malformed_isolation (sampleSlot 1 ++ malformedSlot 2 ++ sampleSlot 3) 3 (by decide)
      [] 1 [] []⟩

/-- C4, evaluated on the code: a stream of two well-formed records read as 20
bytes and then 14 bytes.  The first read stores the first record and drops its
3 trailing bytes; the second read is shorter than 17 bytes and stores nothing.
Read in one piece, the same stream gives both records. -/
theorem partial_record_dropped :
    (receiveData true
        [RecvResult.bytes ((sampleSlot 1 ++ sampleSlot 2).take 20),
         RecvResult.bytes ((sampleSlot 1 ++ sampleSlot 2).drop 20)] [] 1 [] []).data =
      [⟨[65, 66, 67, 68], 66, 10, 100, 1⟩] ∧
    (receiveData true [RecvResult.bytes (sampleSlot 1 ++ sampleSlot 2)] [] 1 [] []).data =
      [⟨[65, 66, 67, 68], 66, 10, 100, 1⟩, ⟨[65, 66, 67, 68], 66, 10, 100, 2⟩] := by
  decide

theorem handlePacket_allValid (rt : Int) (p : Packet) (st : RecvState)
    (h : ∀ x ∈ st.data, x.isValid = true) :
    ∀ x ∈ (handlePacket rt p st).data, x.isValid = true := by
  intro x hx
  rw [handlePacket_data, List.mem_append] at hx
  rcases hx with hx | hx
  · exact h x hx
  · exact (List.mem_filter.1 hx).2

theorem processLoop_allValid (rt : Int) (buf : List Byte) :
    ∀ (fuel off : Nat) (st : RecvState), (∀ x ∈ st.data, x.isValid = true) →
      ∀ x ∈ (processLoop rt buf fuel off st).data, x.isValid = true := by
  intro fuel
  induction fuel with
  | zero => intro off st h; exact h
  | succ n ih =>
    intro off st h
    unfold processLoop
    split
    · split
      · exact h
      · exact ih _ _ (handlePacket_allValid rt _ st h)
    · exact h

theorem receiveLoop_allValid (rt : Int) :
    ∀ (script : List RecvResult) (st : RecvState), (∀ x ∈ st.data, x.isValid = true) →
      ∀ x ∈ (receiveLoop rt script st).2.data, x.isValid = true := by
  intro script
  induction script with
  | nil => intro st h; exact h
  | cons r rest ih =>
    intro st h
    cases r with
    | error => exact h
    | bytes bs =>
      unfold receiveLoop
      simp only
      split
      · exact h
      · split
        · exact processLoop_allValid rt bs _ _ _ h
        · exact ih _ (processLoop_allValid rt bs _ _ _ h)

theorem receiveData_allValid (sv : Bool) (script : List RecvResult) (q : List Int) (rt : Int)
    (data : List Packet) (log : List Event) (h : ∀ x ∈ data, x.isValid = true) :
    ∀ x ∈ (receiveData sv script q rt data log).data, x.isValid = true := by
  unfold receiveData
  split
  · exact h
  · exact receiveLoop_allValid rt script ⟨q, data, 1, log⟩ h

theorem drainStep_allValid (w : World) (s : Session) (h : ∀ x ∈ s.dataPackets, x.isValid = true) :
    ∀ x ∈ (drainStep w s).dataPackets, x.isValid = true := by
  unfold drainStep
  split
  · exact h
  · simp only
    split
    · exact h
    · split
      · exact h
      · exact receiveData_allValid _ _ _ _ _ _ h

theorem drainLoop_allValid (w : World) :
    ∀ (fuel : Nat) (s : Session), (∀ x ∈ s.dataPackets, x.isValid = true) →
      ∀ x ∈ (drainLoop w fuel s).dataPackets, x.isValid = true := by
  intro fuel
  induction fuel with
  | zero => intro s h; exact h
  | succ n ih =>
    intro s h
    unfold drainLoop
    split
    · exact h
    · exact ih _ (drainStep_allValid w s h)

theorem snapshotPhase_allValid (w : World) :
    ∀ x ∈ (snapshotPhase w).data, x.isValid = true :=
  receiveData_allValid _ _ _ _ _ _ (by simp)

theorem drained_allValid (w : World) (fuel : Nat) :
    ∀ x ∈ (drained w fuel).dataPackets, x.isValid = true :=
  drainLoop_allValid w fuel _ (snapshotPhase_allValid w)

theorem main_allValid (srt : StdSort) (w : World) (fuel : Nat) (out : Outcome)
    (h : main srt w fuel = some out) : ∀ x ∈ out.dataPackets, x.isValid = true := by
  by_cases hconn : (w 0).connectOk = true
  · rw [main_eq srt w fuel hconn] at h
    split at h
    · cases h
      exact snapshotPhase_allValid w
    · split at h
      · cases h
        intro x hx
        exact drained_allValid w fuel x ((srt.perm _).mem_iff.1 hx)
      · cases h
  · unfold main at h
    simp only [hconn, Bool.not_false, if_true, Bool.not_eq_true] at h
    simp at hconn
    simp [hconn] at h
    subst h
    simp

theorem isValid_fields (p : Packet) (h : p.isValid = true) :
    (p.indicatorBuySell = 66 ∨ p.indicatorBuySell = 83) ∧ p.symbol ≠ [] ∧
      0 < p.quantity ∧ 0 ≤ p.price ∧ 0 < p.packetSequence := by
  simp only [Packet.isValid, Bool.and_eq_true, Bool.not_eq_true', Bool.or_eq_true,
    beq_iff_eq, decide_eq_true_eq, List.isEmpty_eq_false] at h
  obtain ⟨⟨⟨⟨h1, h2⟩, h3⟩, h4⟩, h5⟩ := h
  exact ⟨h2, h1, h3, h4, h5⟩

theorem handlePacket_log_ext (rt : Int) (p : Packet) (st : RecvState) :
    ∃ tl, (handlePacket rt p st).log = st.log ++ tl ∧
      ∀ e ∈ tl, e = Event.invalidPacket ∨ ∃ r, e = Event.recv r := by
  rw [handlePacket_log]
  refine ⟨_, rfl, ?_⟩
  intro e he
  exact Or.inl (List.eq_of_mem_replicate he)

theorem processLoop_log_ext (rt : Int) (buf : List Byte) :
    ∀ (fuel off : Nat) (st : RecvState),
      ∃ tl, (processLoop rt buf fuel off st).log = st.log ++ tl ∧
        ∀ e ∈ tl, e = Event.invalidPacket ∨ ∃ r, e = Event.recv r := by
  intro fuel
  induction fuel with
  | zero => intro off st; exact ⟨[], by simp [processLoop], by simp⟩
  | succ n ih =>
    intro off st
    unfold processLoop
    split
    · split
      · exact ⟨[], by simp, by simp⟩
      · obtain ⟨t1, h1, p1⟩ := handlePacket_log_ext rt (decodeAt buf off) st
        obtain ⟨t2, h2, p2⟩ := ih (off + 17) (handlePacket rt (decodeAt buf off) st)
        refine ⟨t1 ++ t2, by rw [h2, h1, List.append_assoc], ?_⟩
        intro e he
        rcases List.mem_append.1 he with he | he
        · exact p1 e he
        · exact p2 e he
    · exact ⟨[], by simp, by simp⟩

/-- What `receiveData` adds to the log: `recv` calls and invalid-packet notices. -/
theorem receiveLoop_log_ext (rt : Int) :
    ∀ (script : List RecvResult) (st : RecvState),
      ∃ tl, (receiveLoop rt script st).2.log = st.log ++ tl ∧
        ∀ e ∈ tl, e = Event.invalidPacket ∨ ∃ r, e = Event.recv r := by
  intro script
  induction script with
  | nil =>
    intro st
    exact ⟨[Event.recv 0], rfl, by simp⟩
  | cons r rest ih =>
    intro st
    cases r with
    | error => exact ⟨[Event.recv (-1)], rfl, by simp⟩
    | bytes bs =>
      unfold receiveLoop
      simp only
      obtain ⟨t1, h1, p1⟩ := processLoop_log_ext rt bs bs.length 0
        { st with log := st.log ++ [Event.recv (bs.length : Int)] }
      have hall : ∀ e ∈ Event.recv (bs.length : Int) :: t1,
          e = Event.invalidPacket ∨ ∃ r, e = Event.recv r := by
        intro e he
        rcases List.mem_cons.1 he with he | he
        · exact Or.inr ⟨_, he⟩
        · exact p1 e he
      split
      · exact ⟨[Event.recv (bs.length : Int)], rfl, by simp⟩
      · split
        · refine ⟨Event.recv (bs.length : Int) :: t1, ?_, hall⟩
          show (processBuffer rt bs _).log = _
          unfold processBuffer
          rw [h1]
          simp
        · obtain ⟨t2, h2, p2⟩ := ih (processBuffer rt bs
            { st with log := st.log ++ [Event.recv (bs.length : Int)] })
          refine ⟨Event.recv (bs.length : Int) :: t1 ++ t2, ?_, ?_⟩
          · rw [h2]
            unfold processBuffer
            rw [h1]
            simp
          · intro e he
            rcases List.mem_append.1 he with he | he
            · exact hall e he
            · exact p2 e he

theorem receiveData_log_ext (sv : Bool) (script : List RecvResult) (q : List Int) (rt : Int)
    (data : List Packet) (log : List Event) :
    ∃ tl, (receiveData sv script q rt data log).log = log ++ tl ∧
      ∀ e ∈ tl, e = Event.invalidPacket ∨ ∃ r, e = Event.recv r := by
  unfold receiveData
  split
  · exact ⟨[], by simp, by simp⟩
  · exact receiveLoop_log_ext rt script ⟨q, data, 1, log⟩

theorem isNetwork_of_recv (e : Event) (h : e = Event.invalidPacket ∨ ∃ r, e = Event.recv r) :
    e.isNetwork = true := by
  rcases h with rfl | ⟨r, rfl⟩ <;> rfl

theorem drainStep_isNetwork (w : World) (s : Session) (h : ∀ e ∈ s.log, e.isNetwork = true) :
    ∀ e ∈ (drainStep w s).log, e.isNetwork = true := by
  unfold drainStep
  split
  · exact h
  · simp only
    split
    · intro e he
      simp only [List.mem_append, List.mem_cons, List.mem_singleton, List.not_mem_nil,
        or_false] at he
      rcases he with he | rfl | rfl
      · exact h e he
      · rfl
      · rfl
    · split
      · intro e he
        simp only [List.mem_append, List.mem_cons, List.mem_singleton, List.not_mem_nil,
          or_false] at he
        rcases he with (he | rfl | rfl) | rfl | rfl
        · exact h e he
        all_goals rfl
      · rename_i front rest _ _ _
        obtain ⟨tl, h1, p1⟩ := receiveData_log_ext true
          ((w s.conns).reads (requestType2 front)) rest 2 s.dataPackets
          (s.log ++ [Event.connect true, Event.send (requestType2 front)
            ((w s.conns).sendResult (requestType2 front))])
        intro e he
        have hmem : e ∈ s.log ∨ e = Event.connect true ∨
            e = Event.send (requestType2 front) ((w s.conns).sendResult (requestType2 front)) ∨
            e ∈ tl ∨ e = Event.message "Failed to receive data for missing packet." ∨
            e = Event.disconnect := by
          split at he
          · rw [h1] at he
            simp only [List.mem_append, List.mem_cons, List.mem_singleton, List.not_mem_nil,
              or_false] at he
            tauto
          · rw [h1] at he
            simp only [List.mem_append, List.mem_cons, List.mem_singleton, List.not_mem_nil,
              or_false] at he
            tauto
        rcases hmem with he | rfl | rfl | he | rfl | rfl
        · exact h e he
        · rfl
        · rfl
        · exact isNetwork_of_recv e (p1 e he)
        · rfl
        · rfl

theorem drainLoop_isNetwork (w : World) :
    ∀ (fuel : Nat) (s : Session), (∀ e ∈ s.log, e.isNetwork = true) →
      ∀ e ∈ (drainLoop w fuel s).log, e.isNetwork = true := by
  intro fuel
  induction fuel with
  | zero => intro s h; exact h
  | succ n ih =>
    intro s h
    unfold drainLoop
    split
    · exact h
    · exact ih _ (drainStep_isNetwork w s h)

theorem snapshotPhase_isNetwork (w : World) :
    ∀ e ∈ (snapshotPhase w).log, e.isNetwork = true := by
  obtain ⟨tl, h1, p1⟩ := receiveData_log_ext true ((w 0).reads requestType1) [] 1 []
    (snapshotLog w)
  intro e he
  change e ∈ (receiveData true ((w 0).reads requestType1) [] 1 [] (snapshotLog w)).log at he
  rw [h1, List.mem_append] at he
  rcases he with he | he
  · simp only [snapshotLog, List.mem_cons, List.mem_singleton, List.not_mem_nil, or_false] at he
    rcases he with rfl | rfl | rfl <;> rfl
  · exact isNetwork_of_recv e (p1 e he)

theorem drained_isNetwork (w : World) (fuel : Nat) :
    ∀ e ∈ (drained w fuel).log, e.isNetwork = true :=
  drainLoop_isNetwork w fuel _ (snapshotPhase_isNetwork w)

/-- The only list ever handed to the output step is the sorted result set. -/
theorem main_writeJson (srt : StdSort) (w : World) (fuel : Nat) (out : Outcome)
    (h : main srt w fuel = some out) (d : List Packet) (hd : Event.writeJson d ∈ out.log) :
    d = out.dataPackets ∧ out.status = 0 := by
  by_cases hconn : (w 0).connectOk = true
  · rw [main_eq srt w fuel hconn] at h
    split at h
    · cases h
      exact absurd (snapshotPhase_isNetwork w _ hd) (by simp [Event.isNetwork])
    · split at h
      · cases h
        simp only [List.mem_append, List.mem_cons, List.mem_singleton, List.not_mem_nil,
          or_false] at hd
        rcases hd with hd | hd | hd | hd | hd
        · exact absurd (drained_isNetwork w fuel _ hd) (by simp [Event.isNetwork])
        · cases hd
        · cases hd
          exact ⟨rfl, rfl⟩
        · cases hd
        · cases hd
      · cases h
  · unfold main at h
    simp at hconn
    simp [hconn] at h
    subst h
    simp at hd

/-- C6 (result-set validity): a packet found in `dataPackets` after any number
of snapshot reads, after any number of iterations of the drain loop, when
`main` returns, or in a list handed to the output step, satisfies the five
field constraints: side `'B'` or `'S'`, non-empty symbol, quantity > 0,
price >= 0 and sequence number > 0. -/
theorem result_set_valid (srt : StdSort) (w : World) (reads fuel : Nat) (p : Packet)
    (hp : p ∈ (receiveData true (((w 0).reads requestType1).take reads) [] 1 []
          (snapshotLog w)).data ∨
      p ∈ (drained w fuel).dataPackets ∨
      ∃ out, main srt w fuel = some out ∧
        (p ∈ out.dataPackets ∨ ∃ d, Event.writeJson d ∈ out.log ∧ p ∈ d)) :
    (p.indicatorBuySell = 66 ∨ p.indicatorBuySell = 83) ∧ p.symbol ≠ [] ∧
      0 < p.quantity ∧ 0 ≤ p.price ∧ 0 < p.packetSequence := by
  apply isValid_fields
  rcases hp with hp | hp | ⟨out, hout, hp | ⟨d, hd, hp⟩⟩
  · exact receiveData_allValid _ _ _ _ _ _ (by simp) p hp
  · exact drained_allValid w fuel p hp
  · exact main_allValid srt w fuel out hout p hp
  · rw [(main_writeJson srt w fuel out hout d hd).1] at hp
    exact main_allValid srt w fuel out hout p hp

/-- C6 at the repaired record 3 of the session on the snapshot 1, 2, 4, 5. -/
theorem result_set_valid_witness :
    (⟨[65, 66, 67, 68], 66, 10, 100, 3⟩ : Packet) ∈
      (drained (sampleWorld
        ([[sampleSlot 1, sampleSlot 2], [sampleSlot 4, sampleSlot 5]].map
          (fun r => RecvResult.bytes r.flatten))) 5).dataPackets ∧
    (((66 : Byte) = 66 ∨ (66 : Byte) = 83) ∧ ([65, 66, 67, 68] : List Byte) ≠ [] ∧
      (0 : Int) < 10 ∧ (0 : Int) ≤ 100 ∧ (0 : Int) < 3) :=
  ⟨by decide,
    result_set_valid insertionSort (sampleWorld
        ([[sampleSlot 1, sampleSlot 2], [sampleSlot 4, sampleSlot 5]].map
          (fun r => RecvResult.bytes r.flatten))) 1 5 ⟨[65, 66, 67, 68], 66, 10, 100, 3⟩
      (Or.inr (Or.inl (by decide)))⟩

/-- C7, evaluated on the code: the connection is made and `send()` returns
`SOCKET_ERROR`.  `sendData` returns 1, which `main` does not take for a
failure: it goes on to receive, sort and write, and returns 0. -/
theorem snapshot_send_failure_ignored :
    sendData true (-1) = 1 ∧
    main insertionSort sendFailWorld 0 =
      some ⟨0, [], [],
        [Event.connect true, Event.send [1, 0] (-1), Event.message "Request sent to server.",
          Event.recv 0, Event.sort, Event.writeJson [], Event.totalPackets 0,
          Event.message "Server Disconnected."]⟩ := by
  decide

/-- C8 as stated fails: a `recv()` error after one good read of the snapshot
makes `main` return 1 at once, with no repair, no sort and no output. -/
theorem snapshot_recv_failure_aborts :
    main insertionSort recvFailWorld 5 =
      some ⟨1, [⟨[65, 66, 67, 68], 66, 10, 100, 1⟩], [],
        [Event.connect true, Event.send [1, 0] 2, Event.message "Request sent to server.",
          Event.recv 17, Event.recv (-1)]⟩ := by
  decide

theorem receiveLoop_error_ret (rt : Int) (hrt : rt ≠ 2) (rest : List RecvResult) :
    ∀ (reads : List (List Byte)) (st : RecvState), (∀ bs ∈ reads, bs ≠ []) →
      (receiveLoop rt (reads.map RecvResult.bytes ++ RecvResult.error :: rest) st).1 = -1 := by
  intro reads
  induction reads with
  | nil => intro st _; rfl
  | cons bs more ih =>
    intro st hne
    have hlen : bs.length ≠ 0 := by
      have := hne bs (List.mem_cons_self _ _)
      cases bs with
      | nil => exact absurd rfl this
      | cons b l => simp
    rw [List.map_cons, List.cons_append]
    conv => lhs; unfold receiveLoop
    simp only [if_neg hlen, if_neg hrt]
    exact ih _ (fun x hx => hne x (List.mem_cons_of_mem _ hx))

/-- C8, amended (a snapshot receive failure is fatal): when the first connection
is made and, after zero or more non-empty reads, a `recv()` of the snapshot
response fails, `main` returns with status 1; its log holds nothing but the
connection, the snapshot request, its notice, `recv` calls and invalid-packet
notices: no repair exchange, no sort and no output take place. -/
theorem snapshot_recv_failure_fatal (srt : StdSort) (w : World) (fuel : Nat)
    (reads : List (List Byte)) (rest : List RecvResult)
    (hconn : (w 0).connectOk = true)
    (hscript : (w 0).reads [1, 0] = reads.map RecvResult.bytes ++ RecvResult.error :: rest)
    (hne : ∀ bs ∈ reads, bs ≠ []) :
    ∃ out : Outcome,
      main srt w fuel = some out ∧
      out.status = 1 ∧
      out.dataPackets = (snapshotPhase w).data ∧
      ∀ e ∈ out.log,
        e = Event.connect true ∨ e = Event.send [1, 0] ((w 0).sendResult [1, 0]) ∨
        e = Event.message "Request sent to server." ∨ e = Event.invalidPacket ∨
        ∃ r, e = Event.recv r := by
  have hret : (snapshotPhase w).ret = -1 := by
    show (receiveLoop 1 ((w 0).reads [1, 0]) _).1 = -1
    rw [hscript]
    exact receiveLoop_error_ret 1 (by decide) rest reads _ hne
  have hmain := main_eq srt w fuel hconn
  rw [if_pos hret] at hmain
  refine ⟨_, hmain, rfl, rfl, ?_⟩
  obtain ⟨tl, h1, p1⟩ := receiveData_log_ext true ((w 0).reads requestType1) [] 1 []
    (snapshotLog w)
  intro e he
  change e ∈ (receiveData true ((w 0).reads requestType1) [] 1 [] (snapshotLog w)).log at he
  rw [h1, List.mem_append] at he
  rcases he with he | he
  · simp only [snapshotLog, List.mem_cons, List.mem_singleton, List.not_mem_nil, or_false] at he
    rcases he with rfl | rfl | rfl
    · exact Or.inl rfl
    · exact Or.inr (Or.inl rfl)
    · exact Or.inr (Or.inr (Or.inl rfl))
  · rcases p1 e he with h | h
    · exact Or.inr (Or.inr (Or.inr (Or.inl h)))
    · exact Or.inr (Or.inr (Or.inr (Or.inr h)))

/-- C8, amended, at a snapshot of one record followed by a failing `recv()`. -/
theorem snapshot_recv_failure_fatal_witness :
    ∃ out : Outcome,
      main insertionSort recvFailWorld 5 = some out ∧
      out.status = 1 ∧
      out.dataPackets = (snapshotPhase recvFailWorld).data ∧
      ∀ e ∈ out.log,
        e = Event.connect true ∨ e = Event.send [1, 0] ((recvFailWorld 0).sendResult [1, 0]) ∨
        e = Event.message "Request sent to server." ∨ e = Event.invalidPacket ∨
        ∃ r, e = Event.recv r :=
  snapshot_recv_failure_fatal insertionSort recvFailWorld 5 [sampleSlot 1] [] rfl rfl
    (by decide)

theorem receiveLoop_two_missingPackets :
    ∀ (script : List RecvResult) (st : RecvState),
      (receiveLoop 2 script st).2.missingPackets = st.missingPackets := by
  intro script
  cases script with
  | nil => intro st; rfl
  | cons r rest =>
    intro st
    cases r with
    | error => rfl
    | bytes bs =>
      unfold receiveLoop
      simp only
      split
      · rfl
      · simp only [if_true]
        exact processLoop_missingPackets_of_ne 2 (by decide) bs _ _ _

/-- A repair exchange never touches the queue. -/
theorem receiveData_two_missingPackets (sv : Bool) (script : List RecvResult) (q : List Int)
    (data : List Packet) (log : List Event) :
    (receiveData sv script q 2 data log).missingPackets = q := by
  unfold receiveData
  split
  · rfl
  · exact receiveLoop_two_missingPackets script _

/-- One iteration of the drain loop removes the head of the queue and nothing
else, and uses up one connection. -/
theorem drainStep_pop (w : World) (s : Session) (g : Int) (rest : List Int)
    (hq : s.missingPackets = g :: rest) :
    (drainStep w s).missingPackets = rest ∧ (drainStep w s).conns = s.conns + 1 := by
  obtain ⟨d, q, c, l⟩ := s
  simp only at hq
  subst hq
  unfold drainStep
  simp only
  split
  · exact ⟨rfl, rfl⟩
  · split
    · exact ⟨rfl, rfl⟩
    · exact ⟨receiveData_two_missingPackets _ _ _ _ _, rfl⟩

theorem drainLoop_empties (w : World) :
    ∀ (fuel : Nat) (s : Session), s.missingPackets.length ≤ fuel →
      (drainLoop w fuel s).missingPackets = [] := by
  intro fuel
  induction fuel with
  | zero =>
    intro s h
    exact List.length_eq_zero.1 (Nat.le_zero.1 h)
  | succ n ih =>
    intro s h
    unfold drainLoop
    cases hq : s.missingPackets with
    | nil => simp [hq]
    | cons g rest =>
      simp only [List.isEmpty_cons, Bool.false_eq_true, if_false]
      apply ih
      rw [(drainStep_pop w s g rest hq).1]
      rw [hq] at h
      simp at h
      exact h

/-- The byte sent in a repair request is the gap number reduced modulo 256. -/
theorem requestType2_mod (g : Int) :
    requestType2 g = [2, ⟨(g % 256).toNat, by omega⟩] := by
  simp only [requestType2, byteOfChar, charOfInt, List.cons.injEq, Fin.mk.injEq, true_and,
    and_true]
  omega

/-- One iteration of the drain loop on an established connection: what is
logged. -/
theorem drainStep_connected (w : World) (s : Session) (g : Int) (rest : List Int)
    (hq : s.missingPackets = g :: rest) (hc : (w s.conns).connectOk = true) :
    ∃ tl, (drainStep w s).log =
        s.log ++ Event.connect true ::
          Event.send (requestType2 g) ((w s.conns).sendResult (requestType2 g)) :: tl ∧
      ∀ e ∈ tl, e = Event.invalidPacket ∨ (∃ r, e = Event.recv r) ∨
        e = Event.message "Failed to receive data for missing packet." ∨
        e = Event.disconnect := by
  obtain ⟨d, q, c, l⟩ := s
  simp only at hq hc
  subst hq
  obtain ⟨tl, h1, p1⟩ := receiveData_log_ext true ((w c).reads (requestType2 g)) rest 2 d
    (l ++ [Event.connect true, Event.send (requestType2 g) ((w c).sendResult (requestType2 g))])
  simp only [drainStep, hc, Bool.not_true, Bool.false_eq_true, if_false,
    if_neg (sendData_ne _), h1]
  split
  · refine ⟨tl ++ [Event.message "Failed to receive data for missing packet.",
      Event.disconnect], by simp, ?_⟩
    intro e he
    simp only [List.mem_append, List.mem_cons, List.mem_singleton, List.not_mem_nil,
      or_false] at he
    rcases he with he | rfl | rfl
    · rcases p1 e he with h | h
      · exact Or.inl h
      · exact Or.inr (Or.inl h)
    · exact Or.inr (Or.inr (Or.inl rfl))
    · exact Or.inr (Or.inr (Or.inr rfl))
  · refine ⟨tl ++ [Event.disconnect], by simp, ?_⟩
    intro e he
    simp only [List.mem_append, List.mem_cons, List.mem_singleton, List.not_mem_nil,
      or_false] at he
    rcases he with he | rfl
    · rcases p1 e he with h | h
      · exact Or.inl h
      · exact Or.inr (Or.inl h)
    · exact Or.inr (Or.inr (Or.inr rfl))

theorem drainStep_log_prefix (w : World) (s : Session) :
    ∃ tl, (drainStep w s).log = s.log ++ tl := by
  cases hq : s.missingPackets with
  | nil => exact ⟨[], by simp [drainStep, hq]⟩
  | cons g rest =>
    by_cases hc : (w s.conns).connectOk = true
    · obtain ⟨tl, h, _⟩ := drainStep_connected w s g rest hq hc
      exact ⟨_, h⟩
    · obtain ⟨d, q, c, l⟩ := s
      simp only at hq hc
      subst hq
      simp only [Bool.not_eq_true] at hc
      exact ⟨[Event.connect false,
        Event.message "Failed to connect for missing packet request."],
        by simp only [drainStep, hc, Bool.not_false, if_true]⟩

theorem drainLoop_log_prefix (w : World) :
    ∀ (fuel : Nat) (s : Session), ∃ tl, (drainLoop w fuel s).log = s.log ++ tl := by
  intro fuel
  induction fuel with
  | zero => intro s; exact ⟨[], by simp [drainLoop]⟩
  | succ n ih =>
    intro s
    unfold drainLoop
    split
    · exact ⟨[], by simp⟩
    · obtain ⟨t1, h1⟩ := drainStep_log_prefix w s
      obtain ⟨t2, h2⟩ := ih (drainStep w s)
      exact ⟨t1 ++ t2, by rw [h2, h1, List.append_assoc]⟩

/-- C10 (request encoding): the first thing a session sends, once connected, is
the snapshot request `[1, 0]`; an iteration of the drain loop that takes `g`
from the queue on an established connection sends exactly one request,
`[2, g mod 256]`; hence two gap numbers congruent modulo 256 give the same
request. -/
theorem request_encoding (srt : StdSort) (w : World) (fuel : Nat) (out : Outcome)
    (s : Session) (g h : Int) (rest : List Int)
    (hconn : (w 0).connectOk = true) (hmain : main srt w fuel = some out)
    (hq : s.missingPackets = g :: rest) (hc : (w s.conns).connectOk = true)
    (hmod : g % 256 = h % 256) :
    (∃ tl, out.log = Event.connect true :: Event.send [1, 0] ((w 0).sendResult [1, 0]) :: tl) ∧
    (∃ tl, (drainStep w s).log =
        s.log ++ Event.connect true ::
          Event.send [2, ⟨(g % 256).toNat, by omega⟩]
            ((w s.conns).sendResult [2, ⟨(g % 256).toNat, by omega⟩]) :: tl ∧
      ∀ e ∈ tl, ∀ req r, e ≠ Event.send req r) ∧
    requestType2 g = requestType2 h := by
  refine ⟨?_, ?_, ?_⟩
  · rw [main_eq srt w fuel hconn] at hmain
    obtain ⟨t1, h1, _⟩ := receiveData_log_ext true ((w 0).reads requestType1) [] 1 []
      (snapshotLog w)
    change (snapshotPhase w).log = _ at h1
    split at hmain
    · cases hmain
      exact ⟨Event.message "Request sent to server." :: t1, by rw [h1]; rfl⟩
    · split at hmain
      · cases hmain
        obtain ⟨t2, h2⟩ := drainLoop_log_prefix w fuel
          ⟨(snapshotPhase w).data, (snapshotPhase w).missingPackets, 1, (snapshotPhase w).log⟩
        change (drained w fuel).log = _ at h2
        refine ⟨Event.message "Request sent to server." :: t1 ++ t2 ++
          [Event.sort, Event.writeJson (srt.sort (drained w fuel).dataPackets),
            Event.totalPackets (srt.sort (drained w fuel).dataPackets).length,
            Event.message "Server Disconnected."], ?_⟩
        simp only [h2, h1]
        rfl
      · cases hmain
  · obtain ⟨tl, h1, p1⟩ := drainStep_connected w s g rest hq hc
    rw [requestType2_mod g] at h1
    refine ⟨tl, h1, ?_⟩
    intro e he req r heq
    subst heq
    rcases p1 _ he with h | ⟨_, h⟩ | h | h <;> cases h
  · rw [requestType2_mod g, requestType2_mod h]
    simp only [hmod]

/-- C10 at a session whose snapshot read fails after one record and at a drain
iteration for the gap 300, compared with the gap 44. -/
theorem request_encoding_witness :
    (∃ tl, (⟨1, [⟨[65, 66, 67, 68], 66, 10, 100, 1⟩], [],
        [Event.connect true, Event.send [1, 0] 2, Event.message "Request sent to server.",
          Event.recv 17, Event.recv (-1)]⟩ : Outcome).log =
      Event.connect true :: Event.send [1, 0] ((recvFailWorld 0).sendResult [1, 0]) :: tl) ∧
    (∃ tl, (drainStep recvFailWorld ⟨[], [300], 1, []⟩).log =
        [] ++ Event.connect true ::
          Event.send [2, ⟨((300 : Int) % 256).toNat, by omega⟩]
            ((recvFailWorld 1).sendResult [2, ⟨((300 : Int) % 256).toNat, by omega⟩]) :: tl ∧
      ∀ e ∈ tl, ∀ req r, e ≠ Event.send req r) ∧
    requestType2 300 = requestType2 44 :=
  request_encoding insertionSort recvFailWorld 5
    ⟨1, [⟨[65, 66, 67, 68], 66, 10, 100, 1⟩], [],
      [Event.connect true, Event.send [1, 0] 2, Event.message "Request sent to server.",
        Event.recv 17, Event.recv (-1)]⟩
    ⟨[], [300], 1, []⟩ 300 44 [] rfl (by decide) rfl rfl (by decide)

theorem drainLoop_succ (w : World) (n : Nat) (s : Session) (g : Int) (rest : List Int)
    (hq : s.missingPackets = g :: rest) :
    drainLoop w (n + 1) s = drainLoop w n (drainStep w s) := by
  simp [drainLoop, hq]

/-- After `j` iterations, `j` at most the length of the queue, the first `j`
entries are gone and `j` connections have been used. -/
theorem drainLoop_progress (w : World) :
    ∀ (j : Nat) (s : Session), j ≤ s.missingPackets.length →
      (drainLoop w j s).missingPackets = s.missingPackets.drop j ∧
      (drainLoop w j s).conns = s.conns + j := by
  intro j
  induction j with
  | zero => intro s _; exact ⟨rfl, rfl⟩
  | succ n ih =>
    intro s h
    cases hq : s.missingPackets with
    | nil => rw [hq] at h; simp at h
    | cons g rest =>
      rw [drainLoop_succ w n s g rest hq]
      obtain ⟨e1, e2⟩ := drainStep_pop w s g rest hq
      obtain ⟨h1, h2⟩ := ih (drainStep w s) (by rw [e1]; rw [hq] at h; simp at h; exact h)
      rw [h1, h2, e1, e2]
      exact ⟨by simp, by omega⟩

/-- Fuel beyond the length of the queue is not used. -/
theorem drainLoop_fuel (w : World) :
    ∀ (fuel : Nat) (s : Session), s.missingPackets.length ≤ fuel →
      drainLoop w fuel s = drainLoop w s.missingPackets.length s := by
  intro fuel
  induction fuel with
  | zero =>
    intro s h
    rw [Nat.le_zero.1 h]
  | succ n ih =>
    intro s h
    cases hq : s.missingPackets with
    | nil => rw [drainLoop_done w _ s hq]; rfl
    | cons g rest =>
      rw [drainLoop_succ w n s g rest hq]
      obtain ⟨e1, _⟩ := drainStep_pop w s g rest hq
      rw [ih (drainStep w s) (by rw [e1]; rw [hq] at h; simp at h; exact h), e1]
      show _ = drainLoop w (rest.length + 1) s
      rw [drainLoop_succ w _ s g rest hq]

/-- A session whose snapshot was read to the end of the stream finishes with
status 0 once the fuel covers the queue, whatever the repair exchanges do. -/
theorem main_finishes (srt : StdSort) (w : World) (fuel : Nat)
    (hconn : (w 0).connectOk = true) (hret : (snapshotPhase w).ret ≠ -1)
    (hfuel : (snapshotPhase w).missingPackets.length ≤ fuel) :
    main srt w fuel =
      some ⟨0, srt.sort (drained w fuel).dataPackets, [],
        (drained w fuel).log ++ [Event.sort,
          Event.writeJson (srt.sort (drained w fuel).dataPackets),
          Event.totalPackets (srt.sort (drained w fuel).dataPackets).length,
          Event.message "Server Disconnected."]⟩ := by
  have hempty : (drained w fuel).missingPackets = [] :=
    drainLoop_empties w fuel ⟨_, _, 1, _⟩ hfuel
  rw [main_eq srt w fuel hconn, if_neg hret, hempty]
  rfl

/-- C11 (per-repair failure isolation): an iteration of the drain loop removes
the head of the queue and nothing else, whatever `connect()`, `send()` and
`recv()` do, and the loop goes on with the state it leaves; when the
connection cannot be made the result set is unchanged and only the failure
is logged; when it is made the result set is the one left by the repair
`receiveData`, also after a failed `send()`. -/
theorem repair_failure_isolated (w : World) (s : Session) (g : Int) (rest : List Int)
    (fuel : Nat) (hq : s.missingPackets = g :: rest) :
    (drainStep w s).missingPackets = rest ∧
    drainLoop w (fuel + 1) s = drainLoop w fuel (drainStep w s) ∧
    ((w s.conns).connectOk = false →
      (drainStep w s).dataPackets = s.dataPackets ∧
      (drainStep w s).log = s.log ++ [Event.connect false,
        Event.message "Failed to connect for missing packet request."]) ∧
    ((w s.conns).connectOk = true →
      ∃ r, r = receiveData true ((w s.conns).reads (requestType2 g)) rest 2 s.dataPackets
          (s.log ++ [Event.connect true,
            Event.send (requestType2 g) ((w s.conns).sendResult (requestType2 g))]) ∧
        (drainStep w s).dataPackets = r.data) := by
  refine ⟨(drainStep_pop w s g rest hq).1, drainLoop_succ w fuel s g rest hq, ?_, ?_⟩
  · intro hc
    obtain ⟨d, q, c, l⟩ := s
    simp only at hq hc
    subst hq
    simp only [drainStep, hc, Bool.not_false, if_true, and_self]
  · intro hc
    obtain ⟨d, q, c, l⟩ := s
    simp only at hq hc
    subst hq
    refine ⟨_, rfl, ?_⟩
    simp only [drainStep, hc, Bool.not_true, Bool.false_eq_true, if_false,
      if_neg (sendData_ne _)]

/-- C11 at a queue `[2, 7, 9]` when the repair connection cannot be made. -/
theorem repair_failure_isolated_witness :
    (drainStep (noRepairWorld []) ⟨[⟨[65, 66, 67, 68], 66, 10, 100, 1⟩], [2, 7, 9], 1, []⟩).missingPackets
      = [7, 9] ∧
    drainLoop (noRepairWorld []) (2 + 1) ⟨[⟨[65, 66, 67, 68], 66, 10, 100, 1⟩], [2, 7, 9], 1, []⟩ =
      drainLoop (noRepairWorld []) 2
        (drainStep (noRepairWorld []) ⟨[⟨[65, 66, 67, 68], 66, 10, 100, 1⟩], [2, 7, 9], 1, []⟩) ∧
    (drainStep (noRepairWorld []) ⟨[⟨[65, 66, 67, 68], 66, 10, 100, 1⟩], [2, 7, 9], 1, []⟩).dataPackets
      = [⟨[65, 66, 67, 68], 66, 10, 100, 1⟩] :=
  have h := repair_failure_isolated (noRepairWorld [])
    ⟨[⟨[65, 66, 67, 68], 66, 10, 100, 1⟩], [2, 7, 9], 1, []⟩ 2 [7, 9] 2 rfl
  ⟨h.1, h.2.1, (h.2.2.1 rfl).1⟩

/-- C18 (drain loop termination): with `k` the length of the queue left by the
snapshot phase, after `j` iterations (`j` at most `k`) the queue has `k - j`
entries and `j` repair connections have been made; fuel beyond `k` is not
used, so the loop performs exactly `k` iterations; a repair `receiveData`
never changes the queue; and the session reaches the sort step and returns 0. -/
theorem drain_loop_terminates (srt : StdSort) (w : World) (fuel : Nat)
    (hconn : (w 0).connectOk = true) (hret : (snapshotPhase w).ret ≠ -1)
    (hfuel : (snapshotPhase w).missingPackets.length ≤ fuel) :
    (∀ j, j ≤ (snapshotPhase w).missingPackets.length →
      (drained w j).missingPackets.length = (snapshotPhase w).missingPackets.length - j ∧
      (drained w j).conns = 1 + j) ∧
    drained w fuel = drained w (snapshotPhase w).missingPackets.length ∧
    (∀ (script : List RecvResult) (q : List Int) (data : List Packet) (log : List Event),
      (receiveData true script q 2 data log).missingPackets = q) ∧
    ∃ out : Outcome,
      main srt w fuel = some out ∧ out.status = 0 ∧ out.missingPackets = [] ∧
      Event.sort ∈ out.log := by
  refine ⟨?_, ?_, ?_, ?_⟩
  · intro j hj
    obtain ⟨h1, h2⟩ := drainLoop_progress w j
      ⟨(snapshotPhase w).data, (snapshotPhase w).missingPackets, 1, (snapshotPhase w).log⟩ hj
    change (drained w j).missingPackets = _ at h1
    change (drained w j).conns = _ at h2
    rw [h1, h2]
    exact ⟨by simp, rfl⟩
  · exact drainLoop_fuel w fuel
      ⟨(snapshotPhase w).data, (snapshotPhase w).missingPackets, 1, (snapshotPhase w).log⟩ hfuel
  · intro script q data log
    exact receiveData_two_missingPackets true script q data log
  · exact ⟨_, main_finishes srt w fuel hconn hret hfuel, rfl, rfl, by simp⟩

/-- C18 at the snapshot 1, 2, 4, 5 against a server on which every repair
connection fails: one iteration, then the sort. -/
theorem drain_loop_terminates_witness :
    (∀ j, j ≤ (snapshotPhase (noRepairWorld
          [RecvResult.bytes (sampleSlot 1 ++ sampleSlot 2 ++ sampleSlot 4 ++ sampleSlot 5)])
        ).missingPackets.length →
      (drained (noRepairWorld
          [RecvResult.bytes (sampleSlot 1 ++ sampleSlot 2 ++ sampleSlot 4 ++ sampleSlot 5)])
        j).missingPackets.length =
        (snapshotPhase (noRepairWorld
          [RecvResult.bytes (sampleSlot 1 ++ sampleSlot 2 ++ sampleSlot 4 ++ sampleSlot 5)])
        ).missingPackets.length - j ∧
      (drained (noRepairWorld
          [RecvResult.bytes (sampleSlot 1 ++ sampleSlot 2 ++ sampleSlot 4 ++ sampleSlot 5)])
        j).conns = 1 + j) ∧
    (snapshotPhase (noRepairWorld
        [RecvResult.bytes (sampleSlot 1 ++ sampleSlot 2 ++ sampleSlot 4 ++ sampleSlot 5)])
      ).missingPackets = [3] ∧
    ∃ out : Outcome,
      main insertionSort (noRepairWorld
        [RecvResult.bytes (sampleSlot 1 ++ sampleSlot 2 ++ sampleSlot 4 ++ sampleSlot 5)]) 1
          = some out ∧
      out.status = 0 ∧ out.missingPackets = [] ∧ Event.sort ∈ out.log :=
  have h := drain_loop_terminates insertionSort (noRepairWorld
    [RecvResult.bytes (sampleSlot 1 ++ sampleSlot 2 ++ sampleSlot 4 ++ sampleSlot 5)]) 1
    rfl (by decide) (by decide)
  ⟨h.1, by decide, h.2.2.2⟩

/-- C15 as stated fails: a repair reply carrying the record 10 leaves the
queue `[7]` as it is; the same reply in a snapshot exchange would push the
numbers 1 to 9. -/
theorem repair_reply_pushes_nothing :
    (receiveData true [RecvResult.bytes (sampleSlot 10)] [7] 2 [] []).missingPackets = [7] ∧
    (receiveData true [RecvResult.bytes (sampleSlot 10)] [7] 1 [] []).missingPackets =
      [7, 1, 2, 3, 4, 5, 6, 7, 8, 9] := by
  decide

/-- C15, amended (repair responses do not feed the gap queue): in a repair
exchange (request type 2) the gap arithmetic is skipped, so `receiveData`
leaves the queue and the expected sequence number as they are whatever the
reply holds; an iteration of the drain loop therefore shortens the queue by
exactly one entry and the queue never grows while it is drained. -/
theorem repair_skips_gap_detection (w : World) (s : Session) (g : Int) (rest : List Int)
    (script : List RecvResult) (data : List Packet) (log : List Event)
    (hq : s.missingPackets = g :: rest) :
    (receiveData true script rest 2 data log).missingPackets = rest ∧
    (∀ (p : Packet) (st : RecvState), (handlePacket 2 p st).missingPackets = st.missingPackets ∧
      (handlePacket 2 p st).sequence = st.sequence) ∧
    (drainStep w s).missingPackets = rest ∧
    (drainStep w s).missingPackets.length + 1 = s.missingPackets.length := by
  refine ⟨receiveData_two_missingPackets true script rest data log, ?_,
    (drainStep_pop w s g rest hq).1, ?_⟩
  · intro p st
    rw [handlePacket_missingPackets, handlePacket_sequence]
    unfold trackGaps
    rw [if_neg (by decide)]
    exact ⟨rfl, rfl⟩
  · rw [(drainStep_pop w s g rest hq).1, hq]
    rfl

/-- C15, amended, at a repair of the gap 3 answered with the record 10. -/
theorem repair_skips_gap_detection_witness :
    (receiveData true [RecvResult.bytes (sampleSlot 10)] [7] 2 [] []).missingPackets = [7] ∧
    (drainStep (fun _ => ⟨true, fun _ => 2, fun _ => [RecvResult.bytes (sampleSlot 10)]⟩)
      ⟨[], [3, 7], 1, []⟩).missingPackets = [7] :=
  have h := repair_skips_gap_detection
    (fun _ => ⟨true, fun _ => 2, fun _ => [RecvResult.bytes (sampleSlot 10)]⟩)
    ⟨[], [3, 7], 1, []⟩ 3 [7] [RecvResult.bytes (sampleSlot 10)] [] [] rfl
  ⟨h.1, h.2.2.1⟩

/-- C12 (sorted output): a list handed to the output step by a run of `main` is
a rearrangement of the packets accumulated in `dataPackets` when the drain
loop ends, has the same length, which is the count reported, and is in
non-decreasing order of `packetSequence`. -/
theorem sorted_output (srt : StdSort) (w : World) (fuel : Nat) (out : Outcome)
    (d : List Packet) (hmain : main srt w fuel = some out)
    (hd : Event.writeJson d ∈ out.log) :
    d.Perm (drained w fuel).dataPackets ∧
    d.length = (drained w fuel).dataPackets.length ∧
    d.Pairwise (fun a b => a.packetSequence ≤ b.packetSequence) ∧
    Event.totalPackets d.length ∈ out.log := by
  by_cases hconn : (w 0).connectOk = true
  · rw [main_eq srt w fuel hconn] at hmain
    split at hmain
    · cases hmain
      exact absurd (snapshotPhase_isNetwork w _ hd) (by simp [Event.isNetwork])
    · split at hmain
      · cases hmain
        simp only [List.mem_append, List.mem_cons, List.mem_singleton, List.not_mem_nil,
          or_false] at hd
        rcases hd with hd | hd | hd | hd | hd
        · exact absurd (drained_isNetwork w fuel _ hd) (by simp [Event.isNetwork])
        · cases hd
        · cases hd
          exact ⟨srt.perm _, (srt.perm _).length_eq, srt.sorted _, by simp⟩
        · cases hd
        · cases hd
      · cases hmain
  · unfold main at hmain
    simp at hconn
    simp [hconn] at hmain
    subst hmain
    simp at hd

/-- C12 at a snapshot that delivers the record 2 before the record 1, the
repair connection failing. -/
theorem sorted_output_witness :
    [(⟨[65, 66, 67, 68], 66, 10, 100, 1⟩ : Packet), ⟨[65, 66, 67, 68], 66, 10, 100, 2⟩].Perm
      (drained (noRepairWorld [RecvResult.bytes (sampleSlot 2 ++ sampleSlot 1)]) 1).dataPackets ∧
    (drained (noRepairWorld [RecvResult.bytes (sampleSlot 2 ++ sampleSlot 1)]) 1).dataPackets =
      [⟨[65, 66, 67, 68], 66, 10, 100, 2⟩, ⟨[65, 66, 67, 68], 66, 10, 100, 1⟩] :=
  have h := sorted_output insertionSort
    (noRepairWorld [RecvResult.bytes (sampleSlot 2 ++ sampleSlot 1)]) 1
    ⟨0, [⟨[65, 66, 67, 68], 66, 10, 100, 1⟩, ⟨[65, 66, 67, 68], 66, 10, 100, 2⟩], [],
      [Event.connect true, Event.send [1, 0] 2, Event.message "Request sent to server.",
        Event.recv 34, Event.recv 0, Event.connect false,
        Event.message "Failed to connect for missing packet request.", Event.sort,
        Event.writeJson
          [⟨[65, 66, 67, 68], 66, 10, 100, 1⟩, ⟨[65, 66, 67, 68], 66, 10, 100, 2⟩],
        Event.totalPackets 2, Event.message "Server Disconnected."]⟩
    [⟨[65, 66, 67, 68], 66, 10, 100, 1⟩, ⟨[65, 66, 67, 68], 66, 10, 100, 2⟩]
    (by decide) (by decide)
  ⟨h.1, by decide⟩

/-- The inner loop from offset `17 * k` on a buffer that holds `k + m` whole
slots and a tail shorter than a slot: exactly the `m` packets at the offsets
`17 * k`, ..., `17 * (k + m - 1)` are handled, in order. -/
theorem processLoop_fold (rt : Int) (buf : List Byte) :
    ∀ (m k fuel : Nat) (st : RecvState), 17 * (k + m) ≤ buf.length →
      buf.length < 17 * (k + m) + 17 → m ≤ fuel →
      processLoop rt buf fuel (17 * k) st =
        (List.range' k m).foldl (fun acc i => handlePacket rt (decodeAt buf (17 * i)) acc) st := by
  intro m
  induction m with
  | zero =>
    intro k fuel st _ h2 _
    exact processLoop_stop rt buf fuel _ st (by omega)
  | succ m ih =>
    intro k fuel st h1 h2 hfuel
    obtain ⟨f, rfl⟩ : ∃ f, fuel = f + 1 := ⟨fuel - 1, by omega⟩
    rw [processLoop_step rt buf f _ st (by omega)]
    have h17 : 17 * k + 17 = 17 * (k + 1) := by omega
    rw [h17, ih (k + 1) f _ (by omega) (by omega) (by omega), List.range'_succ, List.foldl_cons]

/-- C17 (partial tail is not decoded): on a read of `n` bytes the inner loop,
given at least `n / 17` iterations, handles exactly the packets at the offsets
0, 17, ..., 17 * (n / 17 - 1) and stops; `processBuffer` gives it enough
iterations; the last `n mod 17` bytes give no record, no event and no queue
entry, and a read shorter than 17 bytes leaves the result set, the queue and
the count of invalid-packet events as they were. -/
theorem partial_tail_not_decoded (requestType : Int) (buf : List Byte) (st : RecvState)
    (fuel : Nat) (missingPackets : List Int) (data : List Packet) (log : List Event)
    (hfuel : buf.length / 17 ≤ fuel) :
    processLoop requestType buf fuel 0 st =
      (List.range (buf.length / 17)).foldl
        (fun acc i => handlePacket requestType (decodeAt buf (17 * i)) acc) st ∧
    processBuffer requestType buf st = processLoop requestType buf fuel 0 st ∧
    (buf.length < 17 →
      processBuffer requestType buf st = st ∧
      (receiveData true [RecvResult.bytes buf] missingPackets requestType data log).data = data ∧
      (receiveData true [RecvResult.bytes buf] missingPackets requestType data
        log).missingPackets = missingPackets ∧
      (receiveData true [RecvResult.bytes buf] missingPackets requestType data log).log.count
        Event.invalidPacket = log.count Event.invalidPacket) := by
  have hfold : ∀ f, buf.length / 17 ≤ f → processLoop requestType buf f 0 st =
      (List.range (buf.length / 17)).foldl
        (fun acc i => handlePacket requestType (decodeAt buf (17 * i)) acc) st := by
    intro f hf
    rw [List.range_eq_range']
    exact processLoop_fold requestType buf (buf.length / 17) 0 f st (by omega) (by omega) hf
  refine ⟨hfold fuel hfuel, ?_, ?_⟩
  · unfold processBuffer
    rw [hfold fuel hfuel, hfold buf.length (Nat.div_le_self _ _)]
  · intro hshort
    have hstop : ∀ s, processBuffer requestType buf s = s :=
      fun s => processLoop_stop requestType buf _ 0 s (by omega)
    refine ⟨hstop st, ?_, ?_, ?_⟩
    · rw [(receiveData_single _ _ _ _ _).1, hstop]
    · rw [(receiveData_single _ _ _ _ _).2, hstop]
    · obtain ⟨tl, h1, h2⟩ := receiveData_single_log buf missingPackets requestType data log
      rw [h1, hstop]
      simp only [List.count_append, h2]
      simp

/-- C17 at a read of 40 bytes (two records and 6 more bytes) and at a read of
the first 16 bytes of a record. -/
theorem partial_tail_not_decoded_witness :
    processLoop 1 (sampleSlot 1 ++ sampleSlot 3 ++ (sampleSlot 4).take 6) 2 0 ⟨[], [], 1, []⟩ =
      (List.range ((sampleSlot 1 ++ sampleSlot 3 ++ (sampleSlot 4).take 6).length / 17)).foldl
        (fun acc i => handlePacket 1
          (decodeAt (sampleSlot 1 ++ sampleSlot 3 ++ (sampleSlot 4).take 6) (17 * i)) acc)
        ⟨[], [], 1, []⟩ ∧
    (processBuffer 1 (sampleSlot 1 ++ sampleSlot 3 ++ (sampleSlot 4).take 6)
        ⟨[], [], 1, []⟩).data =
      [⟨[65, 66, 67, 68], 66, 10, 100, 1⟩, ⟨[65, 66, 67, 68], 66, 10, 100, 3⟩] ∧
    (receiveData true [RecvResult.bytes ((sampleSlot 1).take 16)] [5] 1 [] []).data = [] ∧
    (receiveData true [RecvResult.bytes ((sampleSlot 1).take 16)] [5] 1 [] []).missingPackets
      = [5] :=
  have h := partial_tail_not_decoded 1 (sampleSlot 1 ++ sampleSlot 3 ++ (sampleSlot 4).take 6)
    ⟨[], [], 1, []⟩ 2 [] [] [] (by decide)
  have h' := partial_tail_not_decoded 1 ((sampleSlot 1).take 16) ⟨[], [], 1, []⟩ 0 [5] [] []
    (by decide)
  ⟨h.1, by decide, (h'.2.2 (by decide)).2.1, (h'.2.2 (by decide)).2.2.1⟩

theorem readInt32_eq (buf : List Byte) (off : Nat) :
    readInt32 buf off = wrap32 ((unsigned32 buf off : Nat) : Int) := rfl

theorem unsigned32_lt (buf : List Byte) (off : Nat) : unsigned32 buf off < 4294967296 := by
  unfold unsigned32
  have h0 := (buf.getD off 0).isLt
  have h1 := (buf.getD (off + 1) 0).isLt
  have h2 := (buf.getD (off + 2) 0).isLt
  have h3 := (buf.getD (off + 3) 0).isLt
  omega

theorem unsigned32_top (buf : List Byte) (off : Nat) (h : 128 ≤ (buf.getD off 0).val) :
    2147483648 ≤ unsigned32 buf off := by
  unfold unsigned32
  omega

theorem getD_replace_symbol (sym slot : List Byte) (hsym : sym.length = 4) (k : Nat)
    (hk : 4 ≤ k) : (sym ++ slot.drop 4).getD k 0 = slot.getD k 0 := by
  rw [List.getD_append_right _ _ _ _ (by omega), hsym]
  by_cases h4 : 4 ≤ slot.length
  · conv => rhs; rw [← List.take_append_drop 4 slot]
    rw [List.getD_append_right _ _ _ _ (by simp; omega)]
    simp [List.length_take, Nat.min_eq_left h4]
  · have hd : slot.drop 4 = [] := List.drop_eq_nil_of_le (by omega)
    rw [hd]
    simp only [List.getD_nil]
    rw [List.getD_eq_default _ _ (by omega)]

theorem unsigned32_replace_symbol (sym slot : List Byte) (hsym : sym.length = 4) (k : Nat)
    (hk : 4 ≤ k) : unsigned32 (sym ++ slot.drop 4) k = unsigned32 slot k := by
  unfold unsigned32
  rw [getD_replace_symbol sym slot hsym k hk, getD_replace_symbol sym slot hsym (k + 1) (by omega),
    getD_replace_symbol sym slot hsym (k + 2) (by omega),
    getD_replace_symbol sym slot hsym (k + 3) (by omega)]

/-- Validity of the packet decoded at offset 0 of a buffer of at least 4 bytes,
in terms of the bytes. -/
theorem isValid_decodeAt (slot : List Byte) (h : 4 ≤ slot.length) :
    (decodeAt slot 0).isValid = true ↔
      (slot.getD 4 0 = 66 ∨ slot.getD 4 0 = 83) ∧
      (1 ≤ unsigned32 slot 5 ∧ unsigned32 slot 5 ≤ 2147483647) ∧
      unsigned32 slot 9 ≤ 2147483647 ∧
      (1 ≤ unsigned32 slot 13 ∧ unsigned32 slot 13 ≤ 2147483647) := by
  have hsym : ((slot.drop 0).take 4).isEmpty = false := by
    cases slot with
    | nil => simp at h
    | cons b l => rfl
  have h5 := unsigned32_lt slot 5
  have h9 := unsigned32_lt slot 9
  have h13 := unsigned32_lt slot 13
  simp only [Packet.isValid, decodeAt, hsym, readInt32_eq, wrap32, Nat.zero_add,
    Bool.not_false, Bool.true_and, Bool.and_eq_true, Bool.or_eq_true, beq_iff_eq,
    decide_eq_true_eq]
  constructor
  · rintro ⟨⟨⟨hs, hq⟩, hp⟩, hsq⟩
    exact ⟨hs, by omega, by omega, by omega⟩
  · rintro ⟨hs, hq, hp, hsq⟩
    exact ⟨⟨⟨hs, by omega⟩, by omega⟩, by omega⟩

/-- C19 (exact acceptance condition): the packet decoded from a 17-byte slot
passes `isValid` exactly when byte 4 is `'B'` or `'S'` and the unsigned
big-endian values of the bytes 5-8, 9-12 and 13-16 lie in [1, 2^31 - 1],
[0, 2^31 - 1] and [1, 2^31 - 1]; the symbol decoded always has 4 bytes, and
replacing the 4 symbol bytes by any others does not change the verdict; a
field whose first byte has its top bit set is read as a negative `int` and
the slot is rejected. -/
theorem exact_acceptance (slot sym : List Byte) (k : Nat) (h : slot.length = 17)
    (hsym : sym.length = 4) (hk : k = 5 ∨ k = 9 ∨ k = 13) :
    ((decodeAt slot 0).isValid = true ↔
      (slot.getD 4 0 = 66 ∨ slot.getD 4 0 = 83) ∧
      (1 ≤ unsigned32 slot 5 ∧ unsigned32 slot 5 ≤ 2147483647) ∧
      unsigned32 slot 9 ≤ 2147483647 ∧
      (1 ≤ unsigned32 slot 13 ∧ unsigned32 slot 13 ≤ 2147483647)) ∧
    (decodeAt slot 0).symbol.length = 4 ∧
    (decodeAt (sym ++ slot.drop 4) 0).isValid = (decodeAt slot 0).isValid ∧
    (128 ≤ (slot.getD k 0).val →
      readInt32 slot k < 0 ∧ (decodeAt slot 0).isValid = false) := by
  have hiff := isValid_decodeAt slot (by omega)
  refine ⟨hiff, ?_, ?_, ?_⟩
  · simp [decodeAt, h]
  · have hiff' := isValid_decodeAt (sym ++ slot.drop 4) (by simp [hsym])
    rw [getD_replace_symbol sym slot hsym 4 (le_refl _),
      unsigned32_replace_symbol sym slot hsym 5 (by omega),
      unsigned32_replace_symbol sym slot hsym 9 (by omega),
      unsigned32_replace_symbol sym slot hsym 13 (by omega), ← hiff] at hiff'
    cases h1 : (decodeAt slot 0).isValid <;> cases h2 : (decodeAt (sym ++ List.drop 4 slot) 0).isValid
      <;> simp_all
  · intro htop
    have hu := unsigned32_top slot k htop
    have hlt := unsigned32_lt slot k
    refine ⟨by rw [readInt32_eq]; unfold wrap32; omega, ?_⟩
    rw [Bool.eq_false_iff]
    intro hv
    have := hiff.1 hv
    rcases hk with rfl | rfl | rfl <;> omega

/-- C19 at a well-formed record whose symbol bytes are replaced by four zero
bytes (still accepted) and at a record whose quantity bytes are `FF FF FF FF`
(rejected). -/
theorem exact_acceptance_witness :
    (decodeAt ([0, 0, 0, 0] ++ (sampleSlot 1).drop 4) 0).isValid = true ∧
    (readInt32 (encodePacket ⟨[65, 66, 67, 68], 66, -1, 100, 1⟩) 5 < 0 ∧
      (decodeAt (encodePacket ⟨[65, 66, 67, 68], 66, -1, 100, 1⟩) 0).isValid = false) :=
  ⟨((exact_acceptance (sampleSlot 1) [0, 0, 0, 0] 5 (by decide) rfl (Or.inl rfl)).2.2.1).trans
      (by decide),
    (exact_acceptance (encodePacket ⟨[65, 66, 67, 68], 66, -1, 100, 1⟩) [0, 0, 0, 0] 5
      (by decide) rfl (Or.inl rfl)).2.2.2 (by decide)⟩

theorem exists_slots (n : Nat) :
    ∀ (buf : List Byte), buf.length = 17 * n →
      ∃ slots : List (List Byte), slots.flatten = buf ∧ ∀ s ∈ slots, s.length = 17 := by
  induction n with
  | zero =>
    intro buf h
    exact ⟨[], by rw [List.length_eq_zero.1 (by omega : buf.length = 0)]; rfl, by simp⟩
  | succ n ih =>
    intro buf h
    obtain ⟨slots, h1, h2⟩ := ih (buf.drop 17) (by rw [List.length_drop]; omega)
    refine ⟨buf.take 17 :: slots, ?_, ?_⟩
    · rw [List.flatten, h1, List.take_append_drop]
    · intro s hs
      rcases List.mem_cons.1 hs with rfl | hs
      · rw [List.length_take]; omega
      · exact h2 s hs

theorem exists_slot_reads :
    ∀ (reads : List (List Byte)), (∀ bs ∈ reads, bs ≠ []) → (∀ bs ∈ reads, 17 ∣ bs.length) →
      ∃ sreads : List (List (List Byte)), sreads.map List.flatten = reads ∧
        (∀ r ∈ sreads, r ≠ []) ∧ ∀ r ∈ sreads, ∀ s ∈ r, s.length = 17 := by
  intro reads
  induction reads with
  | nil => intro _ _; exact ⟨[], rfl, by simp, by simp⟩
  | cons bs rest ih =>
    intro hne h17
    obtain ⟨n, hn⟩ := h17 bs (List.mem_cons_self _ _)
    obtain ⟨slots, h1, h2⟩ := exists_slots n bs hn
    obtain ⟨sreads, e1, e2, e3⟩ := ih (fun x hx => hne x (List.mem_cons_of_mem _ hx))
      (fun x hx => h17 x (List.mem_cons_of_mem _ hx))
    refine ⟨slots :: sreads, by rw [List.map_cons, h1, e1], ?_, ?_⟩
    · intro r hr
      rcases List.mem_cons.1 hr with rfl | hr
      · intro hnil
        rw [hnil] at h1
        exact hne bs (List.mem_cons_self _ _) h1.symm
      · exact e2 r hr
    · intro r hr
      rcases List.mem_cons.1 hr with rfl | hr
      · exact h2
      · exact e3 r hr

theorem flatten_map_flatten (L : List (List (List Byte))) :
    (L.map List.flatten).flatten = L.flatten.flatten := by
  induction L with
  | nil => rfl
  | cons a l ih => simp [List.flatten, ih]

/-- C20 (record-aligned reads compose): in a snapshot exchange whose reads are
non-empty and each a multiple of 17 bytes long, `receiveData` leaves the same
result set and the same queue as it does when the concatenation of these
reads arrives as a single buffer. -/
theorem aligned_reads_compose (reads : List (List Byte)) (missingPackets : List Int)
    (data : List Packet) (log : List Event)
    (hne : ∀ bs ∈ reads, bs ≠ []) (h17 : ∀ bs ∈ reads, 17 ∣ bs.length) :
    (receiveData true (reads.map RecvResult.bytes) missingPackets 1 data log).data =
      (receiveData true [RecvResult.bytes reads.flatten] missingPackets 1 data log).data ∧
    (receiveData true (reads.map RecvResult.bytes) missingPackets 1 data log).missingPackets =
      (receiveData true [RecvResult.bytes reads.flatten] missingPackets 1 data
        log).missingPackets := by
  obtain ⟨sreads, e1, e2, e3⟩ := exists_slot_reads reads hne h17
  have hscript : reads.map RecvResult.bytes =
      sreads.map (fun r => RecvResult.bytes r.flatten) := by
    rw [← e1, List.map_map]
    rfl
  have hflat : reads.flatten = sreads.flatten.flatten := by
    rw [← e1, flatten_map_flatten]
  have hall : ∀ s ∈ sreads.flatten, s.length = 17 := by
    intro s hs
    obtain ⟨r, hr, hsr⟩ := List.mem_flatten.1 hs
    exact e3 r hr s hsr
  obtain ⟨_, hd, hq⟩ := receiveData_wholeReads sreads missingPackets data log e2 e3
  have hb := processBuffer_slots 1 sreads.flatten [] hall (by decide)
    ⟨missingPackets, data, 1, log ++ [Event.recv reads.flatten.length]⟩
  rw [List.append_nil, ← hflat] at hb
  rw [hscript, hd, hq, (receiveData_single _ _ _ _ _).1, (receiveData_single _ _ _ _ _).2, hb,
    processSlots_data]
  have hcore : SameCore ⟨missingPackets, data, 1, log⟩
      ⟨missingPackets, data, 1, log ++ [Event.recv reads.flatten.length]⟩ := ⟨rfl, rfl, rfl⟩
  exact ⟨rfl, (processSlots_sameCore 1 sreads.flatten hcore).1⟩

/-- C20 at the records 1, 2 in a first read and the record 5 in a second. -/
theorem aligned_reads_compose_witness :
    (receiveData true ([sampleSlot 1 ++ sampleSlot 2, sampleSlot 5].map RecvResult.bytes)
        [] 1 [] []).data =
      (receiveData true [RecvResult.bytes [sampleSlot 1 ++ sampleSlot 2, sampleSlot 5].flatten]
        [] 1 [] []).data ∧
    (receiveData true ([sampleSlot 1 ++ sampleSlot 2, sampleSlot 5].map RecvResult.bytes)
        [] 1 [] []).missingPackets =
      (receiveData true [RecvResult.bytes [sampleSlot 1 ++ sampleSlot 2, sampleSlot 5].flatten]
        [] 1 [] []).missingPackets ∧
    (receiveData true ([sampleSlot 1 ++ sampleSlot 2, sampleSlot 5].map RecvResult.bytes)
        [] 1 [] []).missingPackets = [3, 4] :=
  have h := aligned_reads_compose [sampleSlot 1 ++ sampleSlot 2, sampleSlot 5] [] [] []
    (by decide) (by decide)
  ⟨h.1, h.2, by decide⟩

/-- The gap arithmetic of the code for one packet, valid or not, where no
32-bit overflow occurs. -/
theorem handlePacket_gaps (p : Packet) (st : RecvState)
    (hs : -1073741824 ≤ st.sequence ∧ st.sequence ≤ 1073741824)
    (hp : -1073741824 ≤ p.packetSequence ∧ p.packetSequence < 1073741824) :
    (handlePacket 1 p st).missingPackets =
      st.missingPackets ++ (List.range (p.packetSequence - st.sequence).toNat).map
        (fun (i : Nat) => st.sequence + (i : Int)) ∧
    (handlePacket 1 p st).sequence = p.packetSequence + 1 := by
  rw [handlePacket_missingPackets, handlePacket_sequence]
  unfold trackGaps
  rw [if_pos rfl]
  simp only
  rw [wrap32_of_range (p.packetSequence - st.sequence) (by omega) (by omega),
    wrap32_of_range (p.packetSequence + 1) (by omega) (by omega)]
  refine ⟨?_, rfl⟩
  congr 1
  apply List.map_congr_left
  intro i hi
  rw [List.mem_range] at hi
  exact wrap32_of_range _ (by omega) (by omega)

theorem processSlots_specGapQueue :
    ∀ (slots : List (List Byte)) (st : RecvState),
      (-1073741824 ≤ st.sequence ∧ st.sequence ≤ 1073741824) →
      (∀ s ∈ slots, -1073741824 ≤ seqOf s ∧ seqOf s < 1073741824) →
      (processSlots 1 slots st).missingPackets =
        st.missingPackets ++ specGapQueue st.sequence (slots.map seqOf) := by
  intro slots
  induction slots with
  | nil => intro st _ _; simp [processSlots, specGapQueue]
  | cons s rest ih =>
    intro st hs hall
    have hp := hall s (List.mem_cons_self _ _)
    obtain ⟨e1, e2⟩ := handlePacket_gaps (decodeAt s 0) st hs hp
    have hnext := ih (handlePacket 1 (decodeAt s 0) st)
      (by rw [e2]; change -1073741824 ≤ seqOf s + 1 ∧ seqOf s + 1 ≤ 1073741824; omega)
      (fun x hx => hall x (List.mem_cons_of_mem _ hx))
    show (processSlots 1 rest (handlePacket 1 (decodeAt s 0) st)).missingPackets = _
    rw [hnext, e1, e2, List.map_cons, specGapQueue, List.append_assoc]
    rfl

/-- C14 as stated fails: in the read valid 1, malformed 5, valid 2 the
malformed slot moves the expected sequence number from 2 to 6 and pushes 2, 3
and 4; the queue after the read is `[2, 3, 4]`, whereas the valid records
alone, 1 and 2, have no gap. -/
theorem invalid_slot_moves_sequence :
    (decodeAt (malformedSlot 5) 0).isValid = false ∧
    (handlePacket 1 (decodeAt (malformedSlot 5) 0) ⟨[], [], 2, []⟩).sequence = 6 ∧
    (handlePacket 1 (decodeAt (malformedSlot 5) 0) ⟨[], [], 2, []⟩).missingPackets = [2, 3, 4] ∧
    (receiveData true [RecvResult.bytes (sampleSlot 1 ++ malformedSlot 5 ++ sampleSlot 2)]
      [] 1 [] []).missingPackets = [2, 3, 4] ∧
    (receiveData true [RecvResult.bytes (sampleSlot 1 ++ malformedSlot 5 ++ sampleSlot 2)]
      [] 1 [] []).data.map (fun p => p.packetSequence) = [1, 2] ∧
    specGapQueue 1 [1, 2] = [] := by
  decide

/-- C14, amended (gap detection counts every decoded slot): in a snapshot
exchange read in whole slots whose sequence numbers lie between -2^30 and
2^30, the queue grows by the specified gap arithmetic applied to the sequence
numbers of all the slots, valid or not; when every slot is valid these are the
sequence numbers of the valid records. -/
theorem gap_detection_counts_every_slot (reads : List (List (List Byte)))
    (missingPackets : List Int) (data : List Packet) (log : List Event)
    (hne : ∀ r ∈ reads, r ≠ [])
    (h17 : ∀ r ∈ reads, ∀ s ∈ r, s.length = 17)
    (hrange : ∀ s ∈ reads.flatten, -1073741824 ≤ seqOf s ∧ seqOf s < 1073741824) :
    (receiveData true (reads.map (fun r => RecvResult.bytes r.flatten)) missingPackets 1 data
        log).missingPackets =
      missingPackets ++ specGapQueue 1 (reads.flatten.map seqOf) ∧
    ((∀ s ∈ reads.flatten, (decodeAt s 0).isValid = true) →
      reads.flatten.map seqOf =
        ((reads.flatten.map (fun s => decodeAt s 0)).filter Packet.isValid).map
          (fun p => p.packetSequence)) := by
  constructor
  · rw [(receiveData_wholeReads reads missingPackets data log hne h17).2.2]
    exact processSlots_specGapQueue reads.flatten ⟨missingPackets, data, 1, log⟩
      ⟨by show (-1073741824 : Int) ≤ 1; decide, by show (1 : Int) ≤ 1073741824; decide⟩ hrange
  · intro hvalid
    rw [List.filter_eq_self.2 (by
      intro p hp
      obtain ⟨s, hs, rfl⟩ := List.mem_map.1 hp
      exact hvalid s hs), List.map_map]
    rfl

/-- C14, amended, at the read valid 1, malformed 5, valid 2. -/
theorem gap_detection_counts_every_slot_witness :
    (receiveData true
        ([[sampleSlot 1, malformedSlot 5, sampleSlot 2]].map
          (fun r => RecvResult.bytes r.flatten)) [] 1 [] []).missingPackets =
      [] ++ specGapQueue 1 ([[sampleSlot 1, malformedSlot 5, sampleSlot 2]].flatten.map seqOf) ∧
    specGapQueue 1 ([[sampleSlot 1, malformedSlot 5, sampleSlot 2]].flatten.map seqOf) =
      [2, 3, 4] :=
  ⟨(gap_detection_counts_every_slot [[sampleSlot 1, malformedSlot 5, sampleSlot 2]] [] [] []
      (by decide) (by decide) (by decide)).1, by decide⟩

/-- One packet with a sequence number of at least 1 keeps the queue within
range: every entry is at least 1 and below a sequence number met so far (`Q`),
and the expected number is in `[1, 2^31 - 1]` or has wrapped to `-2^31`. -/
theorem handlePacket_range (Q : Int → Prop) (p : Packet) (st : RecvState)
    (hq : ∀ g ∈ st.missingPackets, 1 ≤ g ∧ ∃ s, Q s ∧ g < s)
    (hs : (1 ≤ st.sequence ∧ st.sequence ≤ 2147483647) ∨ st.sequence = -2147483648)
    (hp1 : 1 ≤ p.packetSequence) (hp2 : p.packetSequence ≤ 2147483647)
    (hQ : Q p.packetSequence) :
    (∀ g ∈ (handlePacket 1 p st).missingPackets, 1 ≤ g ∧ ∃ s, Q s ∧ g < s) ∧
    ((1 ≤ (handlePacket 1 p st).sequence ∧ (handlePacket 1 p st).sequence ≤ 2147483647) ∨
      (handlePacket 1 p st).sequence = -2147483648) := by
  rw [handlePacket_missingPackets, handlePacket_sequence]
  unfold trackGaps
  rw [if_pos rfl]
  simp only
  constructor
  · intro g hg
    rcases List.mem_append.1 hg with hg | hg
    · exact hq g hg
    · obtain ⟨i, hi, rfl⟩ := List.mem_map.1 hg
      rw [List.mem_range] at hi
      unfold wrap32 at hi ⊢
      exact ⟨by omega, p.packetSequence, hQ, by omega⟩
  · unfold wrap32
    omega

theorem processLoop_range (Q : Int → Prop) (buf : List Byte)
    (hdec : ∀ i, 17 * i + 17 ≤ buf.length →
      1 ≤ (decodeAt buf (17 * i)).packetSequence ∧ Q (decodeAt buf (17 * i)).packetSequence) :
    ∀ (fuel k : Nat) (st : RecvState),
      (∀ g ∈ st.missingPackets, 1 ≤ g ∧ ∃ s, Q s ∧ g < s) →
      ((1 ≤ st.sequence ∧ st.sequence ≤ 2147483647) ∨ st.sequence = -2147483648) →
      (∀ g ∈ (processLoop 1 buf fuel (17 * k) st).missingPackets, 1 ≤ g ∧ ∃ s, Q s ∧ g < s) ∧
      ((1 ≤ (processLoop 1 buf fuel (17 * k) st).sequence ∧
          (processLoop 1 buf fuel (17 * k) st).sequence ≤ 2147483647) ∨
        (processLoop 1 buf fuel (17 * k) st).sequence = -2147483648) := by
  intro fuel
  induction fuel with
  | zero => intro k st hq hs; exact ⟨hq, hs⟩
  | succ n ih =>
    intro k st hq hs
    by_cases hlen : 17 * k + 17 ≤ buf.length
    · rw [processLoop_step 1 buf n _ st hlen]
      obtain ⟨h1, h2⟩ := hdec k hlen
      obtain ⟨hq', hs'⟩ := handlePacket_range Q (decodeAt buf (17 * k)) st hq hs h1
        (wrap32_range _).2 h2
      have h17 : 17 * k + 17 = 17 * (k + 1) := by omega
      rw [h17]
      exact ih (k + 1) _ hq' hs'
    · rw [processLoop_stop 1 buf _ _ st (by omega)]
      exact ⟨hq, hs⟩

theorem receiveLoop_range (Q : Int → Prop) :
    ∀ (script : List RecvResult) (st : RecvState),
      (∀ bs, RecvResult.bytes bs ∈ script → ∀ i, 17 * i + 17 ≤ bs.length →
        1 ≤ (decodeAt bs (17 * i)).packetSequence ∧ Q (decodeAt bs (17 * i)).packetSequence) →
      (∀ g ∈ st.missingPackets, 1 ≤ g ∧ ∃ s, Q s ∧ g < s) →
      ((1 ≤ st.sequence ∧ st.sequence ≤ 2147483647) ∨ st.sequence = -2147483648) →
      ∀ g ∈ (receiveLoop 1 script st).2.missingPackets, 1 ≤ g ∧ ∃ s, Q s ∧ g < s := by
  intro script
  induction script with
  | nil => intro st _ hq _; exact hq
  | cons r rest ih =>
    intro st hdec hq hs
    cases r with
    | error => exact hq
    | bytes bs =>
      unfold receiveLoop
      simp only
      split
      · exact hq
      · rw [if_neg (by decide)]
        obtain ⟨hq', hs'⟩ := processLoop_range Q bs (hdec bs (List.mem_cons_self _ _)) bs.length 0
          { st with log := st.log ++ [Event.recv (bs.length : Int)] } hq hs
        exact ih _ (fun b hb => hdec b (List.mem_cons_of_mem _ hb)) hq' hs'

/-- The queue during the drain loop is a part of the queue left by the snapshot. -/
theorem drained_queue_subset (w : World) (fuel : Nat) :
    ∀ g ∈ (drained w fuel).missingPackets, g ∈ (snapshotPhase w).missingPackets := by
  intro g hg
  by_cases h : fuel ≤ (snapshotPhase w).missingPackets.length
  · have h1 := (drainLoop_progress w fuel
      ⟨(snapshotPhase w).data, (snapshotPhase w).missingPackets, 1, (snapshotPhase w).log⟩ h).1
    change (drained w fuel).missingPackets = _ at h1
    rw [h1] at hg
    exact List.mem_of_mem_drop hg
  · have h1 := drainLoop_empties w fuel
      ⟨(snapshotPhase w).data, (snapshotPhase w).missingPackets, 1, (snapshotPhase w).log⟩
      (by show (snapshotPhase w).missingPackets.length ≤ fuel; omega)
    change (drained w fuel).missingPackets = [] at h1
    rw [h1] at hg
    cases hg

/-- C16 as stated fails: the snapshot holds a record whose sequence field is
-5 (rejected as invalid) followed by the valid record 1; the queue left is
-4, -3, -2, -1, 0, and the only record stored has the sequence number 1. -/
theorem gap_queue_below_one :
    (snapshotPhase (noRepairWorld
      [RecvResult.bytes (sampleSlot (-5) ++ sampleSlot 1)])).missingPackets =
      [-4, -3, -2, -1, 0] ∧
    (snapshotPhase (noRepairWorld
      [RecvResult.bytes (sampleSlot (-5) ++ sampleSlot 1)])).data =
      [⟨[65, 66, 67, 68], 66, 10, 100, 1⟩] := by
  decide

/-- C16, amended (gap-queue range when every slot carries a sequence number of
at least 1): if every complete 17-byte slot of every snapshot read has a
sequence field of at least 1, then after any number of snapshot reads, and at
any point of the drain loop, each entry g of missingPackets satisfies 1 <= g and
g is below the sequence number of a slot decoded from the reads made so far, so
that g is at most the highest sequence number seen. Slots that fail validation
count as seen: the gap arithmetic runs on them too. -/
theorem gap_queue_range (w : World) (fuel reads : Nat)
    (hpos : ∀ bs, RecvResult.bytes bs ∈ (w 0).reads requestType1 → ∀ i, 17 * i + 17 ≤ bs.length →
      1 ≤ (decodeAt bs (17 * i)).packetSequence) :
    (∀ g ∈ (receiveData true (((w 0).reads requestType1).take reads) [] 1 []
          (snapshotLog w)).missingPackets,
      1 ≤ g ∧ ∃ bs i, RecvResult.bytes bs ∈ ((w 0).reads requestType1).take reads ∧
        17 * i + 17 ≤ bs.length ∧ g < (decodeAt bs (17 * i)).packetSequence) ∧
    (∀ g ∈ (drained w fuel).missingPackets,
      1 ≤ g ∧ ∃ bs i, RecvResult.bytes bs ∈ (w 0).reads requestType1 ∧
        17 * i + 17 ≤ bs.length ∧ g < (decodeAt bs (17 * i)).packetSequence) := by
  have key : ∀ (script : List RecvResult) (log : List Event),
      (∀ bs, RecvResult.bytes bs ∈ script → ∀ i, 17 * i + 17 ≤ bs.length →
        1 ≤ (decodeAt bs (17 * i)).packetSequence) →
      ∀ g ∈ (receiveData true script [] 1 [] log).missingPackets,
        1 ≤ g ∧ ∃ bs i, RecvResult.bytes bs ∈ script ∧
          17 * i + 17 ≤ bs.length ∧ g < (decodeAt bs (17 * i)).packetSequence := by
    intro script log hp g hg
    have hinit : (1 ≤ (1 : Int) ∧ (1 : Int) ≤ 2147483647) ∨ (1 : Int) = -2147483648 :=
      Or.inl ⟨by decide, by decide⟩
    have h := receiveLoop_range
      (fun s => ∃ bs i, RecvResult.bytes bs ∈ script ∧ 17 * i + 17 ≤ bs.length ∧
        s = (decodeAt bs (17 * i)).packetSequence)
      script ⟨[], [], 1, log⟩
      (fun bs hbs i hi => ⟨hp bs hbs i hi, bs, i, hbs, hi, rfl⟩)
      (fun g hg => absurd hg (List.not_mem_nil g)) hinit g hg
    obtain ⟨h1, s, hs, hlt⟩ := h
    obtain ⟨bs, i, hbs, hi, hs⟩ := hs
    rw [hs] at hlt
    exact ⟨h1, bs, i, hbs, hi, hlt⟩
  constructor
  · exact key _ _ (fun bs hbs => hpos bs (List.mem_of_mem_take hbs))
  · intro g hg
    exact key _ (snapshotLog w) hpos g (drained_queue_subset w fuel g hg)

/-- C16, amended, at the snapshot valid 1, malformed 5, valid 7 with two repairs made. -/
theorem gap_queue_range_witness :
    (snapshotPhase (sampleWorld
      [RecvResult.bytes (sampleSlot 1 ++ malformedSlot 5 ++ sampleSlot 7)])).missingPackets =
      [2, 3, 4, 6] ∧
    (drained (sampleWorld
      [RecvResult.bytes (sampleSlot 1 ++ malformedSlot 5 ++ sampleSlot 7)]) 2).missingPackets =
      [4, 6] ∧
    ∀ g ∈ (drained (sampleWorld
        [RecvResult.bytes (sampleSlot 1 ++ malformedSlot 5 ++ sampleSlot 7)]) 2).missingPackets,
      1 ≤ g ∧ ∃ bs i, RecvResult.bytes bs ∈ (sampleWorld
          [RecvResult.bytes (sampleSlot 1 ++ malformedSlot 5 ++ sampleSlot 7)] 0).reads
            requestType1 ∧
        17 * i + 17 ≤ bs.length ∧ g < (decodeAt bs (17 * i)).packetSequence :=
  ⟨by decide, by decide,
    (gap_queue_range
      (sampleWorld [RecvResult.bytes (sampleSlot 1 ++ malformedSlot 5 ++ sampleSlot 7)]) 2 1
      (by
        intro bs hbs i hi
        change RecvResult.bytes bs ∈
          [RecvResult.bytes (sampleSlot 1 ++ malformedSlot 5 ++ sampleSlot 7)] at hbs
        have hb : bs = sampleSlot 1 ++ malformedSlot 5 ++ sampleSlot 7 := by
          simpa using hbs
        subst hb
        have hl : (sampleSlot 1 ++ malformedSlot 5 ++ sampleSlot 7).length = 51 := by decide
        rw [hl] at hi
        have h3 : i < 3 := by omega
        interval_cases i <;> decide)).2⟩

end ABX
